import Mathlib

/-!
Shallow embedding of the 802.11ad PHY duration calculator
(src/wifi/model/wifi-phy.cc) and of the management-frame
information-element container (src/wifi/model/common-header.cc).

Modelling conventions:
* C++ `double` arithmetic is modelled by exact rational arithmetic (`ℚ`);
  decimal literals such as `1.76` and `0.57` are modelled by their exact
  decimal values `44/25` and `57/100`.
* `uint32_t` arithmetic that can wrap is modelled on `ℕ` with an explicit
  `% 2^32` (`u32`, `u32sub`); arithmetic the source performs in `double`
  (where a `uint32_t` operand is converted exactly) carries no reduction.
* `lrint (ceil x)` of a non-negative value is `⌈x⌉`; a `(uint32_t)` cast of
  a non-negative `double` truncates, so `(uint32_t) ceil x` is `⌈x⌉.toNat`.
* `NS_FATAL_ERROR`, a failing `NS_ASSERT`, and undefined behaviour
  (a division by zero feeding a `uint32_t` cast) are modelled by `none`.
* Durations are returned in exact nanoseconds (`ℚ`).
* Declarations that live in headers or files not present under src/
  (wifi-phy.h member fields, wifi-mode.cc `GetDataRate`,
  the information-element base class) are modelled from the spec and are
  marked `Modelled from the spec:` in their doc comments.
-/

/-- Modulation classes (WifiModulationClass, wifi-mode.h). -/
inductive WifiModulationClass
  | DSSS
  | HR_DSSS
  | ERP_OFDM
  | OFDM
  | HT
  | VHT
  | DMG_CTRL
  | DMG_SC
  | DMG_LP_SC
  | DMG_OFDM
deriving DecidableEq, Repr

/-- Code rates (WifiCodeRate, wifi-mode.h). -/
inductive WifiCodeRate
  | UNDEFINED
  | R1_2
  | R2_3
  | R3_4
  | R5_8
  | R13_16
  | R1_4
  | R13_28
  | R13_21
  | R52_63
  | R13_14
deriving DecidableEq, Repr

/-- Preamble kinds (WifiPreamble, wifi-preamble.h). -/
inductive WifiPreamble
  | LONG
  | SHORT
  | HT_MF
  | HT_GF
  | VHT
  | NONE
deriving DecidableEq, Repr

/-- MPDU roles (enum mpduType, wifi-phy.h; the names are used throughout
wifi-phy.cc). -/
inductive MpduType
  | NORMAL_MPDU
  | MPDU_IN_AGGREGATE
  | LAST_MPDU_IN_AGGREGATE
deriving DecidableEq, Repr

/-- A mode descriptor as interned by WifiModeFactory::CreateWifiMode /
CreateWifiMcs (wifi-phy.cc mode boilerplate).  `phyBandwidth`/`phyRate`
are the explicit DMG (bandwidth, bit-rate) pair; non-DMG modes carry 0.
`dataRateFn` — Modelled from the spec: `WifiMode::GetDataRate (width, sgi,
nss)` is implemented in wifi-mode.cc, which is not under src/; the catalog
maps each mode to its standard-clause rate, kept here as a per-mode field. -/
structure WifiMode where
  uniqueName : String
  modClass : WifiModulationClass
  isMandatory : Bool
  codeRate : WifiCodeRate
  constellationSize : ℕ
  mcsValue : ℕ
  phyBandwidth : ℕ
  phyRate : ℕ
  dataRateFn : ℕ → Bool → ℕ → ℚ

/-- `WifiMode::GetDataRate (channelWidth, sgi, nss)` — Modelled from the
spec (wifi-mode.cc is not under src/): the mode's nominal data rate in
bits per second. -/
def WifiMode.GetDataRate (m : WifiMode) (width : ℕ) (sgi : Bool) (nss : ℕ) : ℚ :=
  m.dataRateFn width sgi nss

/-- A transmit vector (WifiTxVector, wifi-tx-vector.h): mode, channel
width in MHz, spatial streams, extension streams, short-GI flag, STBC
flag, beam-training field length. -/
structure WifiTxVector where
  mode : WifiMode
  channelWidth : ℕ
  nss : ℕ
  ness : ℕ
  shortGuardInterval : Bool
  stbc : Bool
  trainingFieldLength : ℕ

/-- Modelled from the spec: the aggregation accumulator of WifiPhy
(members m_totalAmpduSize / m_totalAmpduNumSymbols declared in wifi-phy.h,
which is not under src/): bytes and symbols already spent in the
in-flight aggregated burst, kept as exact numbers. -/
structure WifiPhyState where
  totalAmpduSize : ℕ
  totalAmpduNumSymbols : ℚ
deriving DecidableEq, Repr

/-- The all-zero accumulator (WifiPhy constructor, wifi-phy.cc:114-115). -/
def zeroPhyState : WifiPhyState := ⟨0, 0⟩

/-- Modelled from the spec: the minimum-duration floors OFDMSCMin and
OFDMBRPMin applied when training fields are requested are named constants
declared in wifi-phy.h, which is not under src/; they are kept as
parameters so every theorem holds for all values. -/
structure PhyConstants where
  ofdmSCMin : ℕ
  ofdmBRPMin : ℕ
deriving DecidableEq, Repr

/-- 2^32, the modulus of `uint32_t` arithmetic. -/
def U32MOD : ℕ := 4294967296

/-- Reduction of a machine `uint32_t` value. -/
def u32 (n : ℕ) : ℕ := n % U32MOD

/-- `uint32_t` subtraction `a - b` (modular wrap-around), for reduced
arguments `a b < 2^32`. -/
def u32sub (a b : ℕ) : ℕ := (a + U32MOD - b) % U32MOD

/-- Legacy-OFDM symbol duration in ns from the channel-width switch
(wifi-phy.cc:459-471): 20 MHz and the default give 4 µs, 10 MHz 8 µs,
5 MHz 16 µs. -/
def ofdmSymbolDurationNs (width : ℕ) : ℕ :=
  if width = 10 then 8000 else if width = 5 then 16000 else 4000

/-- N_DBPS for the legacy OFDM/ERP-OFDM branch (wifi-phy.cc:475):
`GetDataRate (width, 0, 1) * symbolDuration.GetNanoSeconds () / 1e9`. -/
def ofdmNumDataBitsPerSymbol (tx : WifiTxVector) : ℚ :=
  tx.mode.GetDataRate tx.channelWidth false 1 * (ofdmSymbolDurationNs tx.channelWidth : ℚ)
    / 1000000000

/-- HT/VHT symbol duration in ns (wifi-phy.cc:538-545): 3.6 µs with short
guard interval, 4 µs otherwise. -/
def htVhtSymbolDurationNs (tx : WifiTxVector) : ℚ :=
  if tx.shortGuardInterval then 3600 else 4000

/-- The HT/VHT encoder count Nes (wifi-phy.cc:557-665): a chain of `if`
assignments, the last satisfied one winning. -/
def htVhtNes (tx : WifiTxVector) : ℕ :=
  let name := tx.mode.uniqueName
  let mcs := tx.mode.mcsValue
  let w := tx.channelWidth
  let nss := tx.nss
  let n := 1
  let n := if name = "HtMcs21" ∨ name = "HtMcs22" ∨ name = "HtMcs23" ∨ name = "HtMcs28"
      ∨ name = "HtMcs29" ∨ name = "HtMcs30" ∨ name = "HtMcs31" then 2 else n
  let n := if w = 40 ∧ nss = 3 ∧ 8 ≤ mcs then 2 else n
  let n := if w = 80 ∧ nss = 2 ∧ 7 ≤ mcs then 2 else n
  let n := if w = 80 ∧ nss = 3 ∧ 7 ≤ mcs then 2 else n
  let n := if w = 80 ∧ nss = 3 ∧ mcs = 9 then 3 else n
  let n := if w = 80 ∧ nss = 4 ∧ 4 ≤ mcs then 2 else n
  let n := if w = 80 ∧ nss = 4 ∧ 7 ≤ mcs then 3 else n
  let n := if w = 160 ∧ (name = "VhtMcs7" ∧ 7 ≤ mcs) then 2 else n
  let n := if w = 160 ∧ nss = 2 ∧ 4 ≤ mcs then 2 else n
  let n := if w = 160 ∧ nss = 2 ∧ 7 ≤ mcs then 3 else n
  let n := if w = 160 ∧ nss = 3 ∧ 3 ≤ mcs then 2 else n
  let n := if w = 160 ∧ nss = 3 ∧ 5 ≤ mcs then 3 else n
  let n := if w = 160 ∧ nss = 3 ∧ 7 ≤ mcs then 4 else n
  let n := if w = 160 ∧ nss = 4 ∧ 2 ≤ mcs then 2 else n
  let n := if w = 160 ∧ nss = 4 ∧ 4 ≤ mcs then 3 else n
  let n := if w = 160 ∧ nss = 4 ∧ 5 ≤ mcs then 4 else n
  let n := if w = 160 ∧ nss = 4 ∧ 7 ≤ mcs then 6 else n
  n

/-- The STBC factor m_Stbc (wifi-phy.cc:547-554). -/
def htStbcFactor (tx : WifiTxVector) : ℚ := if tx.stbc then 2 else 1

/-- N_DBPS for the HT/VHT branch (wifi-phy.cc:668):
`GetDataRate (width, sgi, nss) * symbolDuration.GetNanoSeconds () / 1e9`. -/
def htVhtNumDataBitsPerSymbol (tx : WifiTxVector) : ℚ :=
  tx.mode.GetDataRate tx.channelWidth tx.shortGuardInterval tx.nss
    * htVhtSymbolDurationNs tx / 1000000000

/-- Coded-bit-per-block table for DMG-SC (wifi-phy.cc:801-813,
Table 21-20); an unsupported constellation is fatal. -/
def dmgScNcbpb : ℕ → Option ℕ
  | 2 => some 448
  | 4 => some 896
  | 16 => some 1792
  | 64 => some 2688
  | 256 => some 3584
  | _ => none

/-- Coded-bit-per-symbol table for DMG-OFDM (wifi-phy.cc:853-863); an
unsupported constellation is fatal. -/
def dmgOfdmNcbps : ℕ → Option ℕ
  | 2 => some 336
  | 4 => some 672
  | 16 => some 1344
  | 64 => some 2016
  | _ => none

/-- Code-rate bit expansion shared by the DMG-SC and DMG-OFDM branches
(wifi-phy.cc:818-829 and 868-879).  `Nbits` is the already-reduced
`uint32_t` payload bit count; the products and the `uint32_t` casts of
the ceilings are reduced mod 2^32 (the cast of an out-of-range `double`
is undefined behaviour; no claim relies on that range). -/
def dmgCodedBits (Nbits : ℕ) : WifiCodeRate → Option ℕ
  | .R1_4 => some (u32 (Nbits * 4))
  | .R1_2 => some (u32 (Nbits * 2))
  | .R13_16 => some (u32 ((⌈(Nbits : ℚ) * 16 / 13⌉).toNat)
    )
  | .R3_4 => some (u32 ((⌈(Nbits : ℚ) * 4 / 3⌉).toNat))
  | .R5_8 => some (u32 ((⌈(Nbits : ℚ) * 8 / 5⌉).toNat))
  | _ => none

/-- Number of LDPC codewords in the DMG-Control branch
(wifi-phy.cc:742 and 757): `Ncw = 1 + (uint32_t) ceil ((double (size) - 6) * 8/168)`. -/
def dmgCtrlNcw (size : ℕ) : ℕ :=
  1 + (⌈(((size : ℚ)) - 6) * 8 / 168⌉).toNat

/-- The chip count of the DMG-Control no-training branch
(wifi-phy.cc:743-746), `uint32_t` arithmetic; defined when Ncw ≥ 2. -/
def dmgCtrlChips (size : ℕ) : ℕ :=
  let Ncw := dmgCtrlNcw size
  let Ldpcw : ℕ := (⌈(((size : ℚ)) - 6) * 8 / ((Ncw : ℚ) - 1)⌉).toNat
  let L8 : ℕ := u32 (u32sub (u32 size) 6 * 8)
  let Ldplcw : ℕ := u32sub L8 (u32 ((Ncw - 2) * Ldpcw))
  let Dencoded : ℕ :=
    u32 (u32sub 672 (u32sub 504 Ldpcw) * (Ncw - 2) + u32sub 672 (u32sub 504 Ldplcw))
  u32 (Dencoded * 32)

/-- The `uint32_t` operand `88 + (size - 6) * 8 + Ncw * 168` of the
DMG-Control beam-training branch (wifi-phy.cc:758). -/
def dmgCtrlTrnW (size : ℕ) : ℕ :=
  u32 (u32 (88 + u32 (u32sub (u32 size) 6 * 8)) + u32 (dmgCtrlNcw size * 168))

/-- The DMG-SC data duration in ns before the training floor
(wifi-phy.cc:832-837): codewords, blocks, then `(Nblks * 512 + 64)/1.76`. -/
def dmgScTData (Ncbpb Ncbits : ℕ) : ℕ :=
  let Ncw : ℕ := (⌈(Ncbits : ℚ) / 672⌉).toNat
  let Nblks : ℕ := (⌈(Ncw : ℚ) * 672 / (Ncbpb : ℚ)⌉).toNat
  (⌈((Nblks : ℚ) * 512 + 64) / (44/25)⌉).toNat

/-- The DMG-OFDM data duration in ns before the training floor
(wifi-phy.cc:881-886): codewords, OFDM symbols, then `Nsym * 242`. -/
def dmgOfdmTData (Ncbps Ncbits : ℕ) : ℕ :=
  let Ncw : ℕ := (⌈(Ncbits : ℚ) / 672⌉).toNat
  let Nsym : ℕ := (⌈(Ncw : ℚ) * 672 / (Ncbps : ℚ)⌉).toNat
  u32 (Nsym * 242)

/-- WifiPhy::GetPayloadDuration (wifi-phy.cc:444-901).  Returns the
payload duration in exact nanoseconds together with the accumulator after
the call, or `none` on a fatal error / failed assertion / undefined
division. -/
def GetPayloadDuration (C : PhyConstants) (size : ℕ) (tx : WifiTxVector)
    (preamble : WifiPreamble) (frequency : ℚ) (mpdutype : MpduType)
    (incFlag : Bool) (st : WifiPhyState) : Option (ℚ × WifiPhyState) :=
  match tx.mode.modClass with
  | .OFDM | .ERP_OFDM =>
    let symbolDuration : ℚ := (ofdmSymbolDurationNs tx.channelWidth : ℚ)
    let numDataBitsPerSymbol : ℚ := ofdmNumDataBitsPerSymbol tx
    -- signal extension for ERP (wifi-phy.cc:521-529)
    let ret : ℚ → WifiPhyState → Option (ℚ × WifiPhyState) := fun numSymbols st' =>
      if tx.mode.modClass = .ERP_OFDM then
        some (numSymbols * symbolDuration + 6000, st')
      else
        some (numSymbols * symbolDuration, st')
    if mpdutype = .MPDU_IN_AGGREGATE ∧ preamble ≠ .NONE then
      -- first packet in an A-MPDU (wifi-phy.cc:478-487)
      let numSymbols : ℚ := (16 + (size : ℚ) * 8 + 6) / numDataBitsPerSymbol
      let st' := if incFlag then
          (⟨st.totalAmpduSize + size, st.totalAmpduNumSymbols + numSymbols⟩ : WifiPhyState)
        else st
      ret numSymbols st'
    else if mpdutype = .MPDU_IN_AGGREGATE ∧ preamble = .NONE then
      -- consecutive packets in an A-MPDU (wifi-phy.cc:488-497)
      let numSymbols : ℚ := ((size : ℚ) * 8) / numDataBitsPerSymbol
      let st' := if incFlag then
          (⟨st.totalAmpduSize + size, st.totalAmpduNumSymbols + numSymbols⟩ : WifiPhyState)
        else st
      ret numSymbols st'
    else if mpdutype = .LAST_MPDU_IN_AGGREGATE ∧ preamble = .NONE then
      -- last packet in an A-MPDU (wifi-phy.cc:498-510)
      let totalAmpduSize := st.totalAmpduSize + size
      let target : ℚ :=
        ((⌈(16 + (totalAmpduSize : ℚ) * 8 + 6) / numDataBitsPerSymbol⌉ : ℤ) : ℚ)
      if st.totalAmpduNumSymbols ≤ target then
        let numSymbols : ℚ := target - st.totalAmpduNumSymbols
        let st' := if incFlag then zeroPhyState else st
        ret numSymbols st'
      else none
    else if mpdutype = .NORMAL_MPDU ∧ preamble ≠ .NONE then
      -- not an A-MPDU (wifi-phy.cc:511-515)
      let numSymbols : ℚ :=
        ((⌈(16 + (size : ℚ) * 8 + 6) / numDataBitsPerSymbol⌉ : ℤ) : ℚ)
      ret numSymbols st
    else none
  | .HT | .VHT =>
    let symbolDuration : ℚ := htVhtSymbolDurationNs tx
    let mStbc : ℚ := htStbcFactor tx
    let Nes : ℚ := (htVhtNes tx : ℚ)
    let numDataBitsPerSymbol : ℚ := htVhtNumDataBitsPerSymbol tx
    -- 6 µs signal extension at 2.4 GHz on a terminating frame (wifi-phy.cc:714-721)
    let ret : ℚ → WifiPhyState → Option (ℚ × WifiPhyState) := fun numSymbols st' =>
      if tx.mode.modClass = .HT ∧ 2400 ≤ frequency ∧ frequency ≤ 2500 ∧
          ((mpdutype = .NORMAL_MPDU ∧ preamble ≠ .NONE) ∨
           (mpdutype = .LAST_MPDU_IN_AGGREGATE ∧ preamble = .NONE)) then
        some (numSymbols * symbolDuration + 6000, st')
      else
        some (numSymbols * symbolDuration, st')
    if mpdutype = .MPDU_IN_AGGREGATE ∧ preamble ≠ .NONE then
      -- first packet in an A-MPDU (wifi-phy.cc:671-680)
      let numSymbols : ℚ :=
        mStbc * (16 + (size : ℚ) * 8 + 6 * Nes) / (mStbc * numDataBitsPerSymbol)
      let st' := if incFlag then
          (⟨st.totalAmpduSize + size, st.totalAmpduNumSymbols + numSymbols⟩ : WifiPhyState)
        else st
      ret numSymbols st'
    else if mpdutype = .MPDU_IN_AGGREGATE ∧ preamble = .NONE then
      -- consecutive packets in an A-MPDU (wifi-phy.cc:681-690)
      let numSymbols : ℚ := (mStbc * (size : ℚ) * 8) / (mStbc * numDataBitsPerSymbol)
      let st' := if incFlag then
          (⟨st.totalAmpduSize + size, st.totalAmpduNumSymbols + numSymbols⟩ : WifiPhyState)
        else st
      ret numSymbols st'
    else if mpdutype = .LAST_MPDU_IN_AGGREGATE ∧ preamble = .NONE then
      -- last packet in an A-MPDU (wifi-phy.cc:691-703)
      let totalAmpduSize := st.totalAmpduSize + size
      let target : ℚ := mStbc *
        ((⌈(16 + (totalAmpduSize : ℚ) * 8 + 6 * Nes) / (mStbc * numDataBitsPerSymbol)⌉ : ℤ) : ℚ)
      if st.totalAmpduNumSymbols ≤ target then
        let numSymbols : ℚ := target - st.totalAmpduNumSymbols
        let st' := if incFlag then zeroPhyState else st
        ret numSymbols st'
      else none
    else if mpdutype = .NORMAL_MPDU ∧ preamble ≠ .NONE then
      -- not an A-MPDU (wifi-phy.cc:704-708)
      let numSymbols : ℚ := mStbc *
        ((⌈(16 + (size : ℚ) * 8 + 6 * Nes) / (mStbc * numDataBitsPerSymbol)⌉ : ℤ) : ℚ)
      ret numSymbols st
    else none
  | .DSSS | .HR_DSSS =>
    -- wifi-phy.cc:723-729: MicroSeconds (lrint (ceil ((size * 8.0) / (rate / 1e6))))
    some (1000 * ((⌈((size : ℚ) * 8) / (tx.mode.GetDataRate 22 false 1 / 1000000)⌉ : ℤ) : ℚ), st)
  | .DMG_CTRL =>
    if tx.trainingFieldLength = 0 then
      -- wifi-phy.cc:733-753
      if dmgCtrlNcw size = 1 then
        -- Ldpcw divides by `Ncw - 1 = 0`: the double division yields an
        -- infinity whose uint32_t cast is undefined behaviour.
        none
      else
        some (((⌈(dmgCtrlChips size : ℚ) / (44/25)⌉ : ℤ) : ℚ), st)
    else
      -- wifi-phy.cc:754-759
      some (((⌈(dmgCtrlTrnW size : ℚ) * (57/100) * 32⌉ : ℤ) : ℚ), st)
  | .DMG_SC =>
    -- wifi-phy.cc:796-846
    match dmgScNcbpb tx.mode.constellationSize with
    | none => none
    | some Ncbpb =>
      match dmgCodedBits (u32 (size * 8)) tx.mode.codeRate with
      | none => none
      | some Ncbits =>
        let tData : ℕ := dmgScTData Ncbpb Ncbits
        let tData := if tx.trainingFieldLength ≠ 0 ∧ tData < C.ofdmSCMin
          then C.ofdmSCMin else tData
        some ((tData : ℚ), st)
  | .DMG_OFDM =>
    -- wifi-phy.cc:848-895
    match dmgOfdmNcbps tx.mode.constellationSize with
    | none => none
    | some Ncbps =>
      match dmgCodedBits (u32 (size * 8)) tx.mode.codeRate with
      | none => none
      | some Ncbits =>
        let tData : ℕ := dmgOfdmTData Ncbps Ncbits
        let tData := if tx.trainingFieldLength ≠ 0 ∧ tData < C.ofdmBRPMin
          then C.ofdmBRPMin else tData
        some ((tData : ℚ), st)
  | .DMG_LP_SC =>
    -- wifi-phy.cc:762-794: upstream formula commented out, returns 0
    some (0, st)

/-- WifiPhy::GetPlcpPreambleDuration (wifi-phy.cc:369-436).  Duration in
nanoseconds; every modulation class has a case, so the function is total. -/
def GetPlcpPreambleDuration (tx : WifiTxVector) (preamble : WifiPreamble) : ℚ :=
  if preamble = .NONE then 0 else
  match tx.mode.modClass with
  | .OFDM =>
    -- the switch labels are 20000000 / 10000000 / 5000000 with default 16 µs
    if tx.channelWidth = 10000000 then 32000
    else if tx.channelWidth = 5000000 then 64000
    else 16000
  | .VHT | .HT => 16000
  | .ERP_OFDM => 16000
  | .DSSS | .HR_DSSS =>
    if preamble = .SHORT ∧ 1000000 < tx.mode.GetDataRate 22 false 1 then 72000 else 144000
  | .DMG_CTRL => 4291
  | .DMG_SC | .DMG_LP_SC => 1891
  | .DMG_OFDM => 1891

/-- Sequencing of an aggregated burst's middle frames: each call is
GetPayloadDuration with role MPDU_IN_AGGREGATE, no preamble, and the
commit flag set, durations summed. -/
def runMiddles (C : PhyConstants) (tx : WifiTxVector) (frequency : ℚ) :
    List ℕ → WifiPhyState → Option (ℚ × WifiPhyState)
  | [], st => some (0, st)
  | s :: rest, st =>
    match GetPayloadDuration C s tx .NONE frequency .MPDU_IN_AGGREGATE true st with
    | none => none
    | some (d, st') =>
      match runMiddles C tx frequency rest st' with
      | none => none
      | some (dr, st'') => some (d + dr, st'')

/-- A whole committed aggregated burst: First (with the given preamble),
then the middle frames, then Last (no preamble), every call with the
commit flag set, durations summed. -/
def runBurst (C : PhyConstants) (tx : WifiTxVector) (preamble : WifiPreamble)
    (frequency : ℚ) (s1 : ℕ) (mids : List ℕ) (sLast : ℕ) (st : WifiPhyState) :
    Option (ℚ × WifiPhyState) :=
  match GetPayloadDuration C s1 tx preamble frequency .MPDU_IN_AGGREGATE true st with
  | none => none
  | some (d1, st1) =>
    match runMiddles C tx frequency mids st1 with
    | none => none
    | some (dm, st2) =>
      match GetPayloadDuration C sLast tx .NONE frequency .LAST_MPDU_IN_AGGREGATE true st2 with
      | none => none
      | some (dl, st3) => some (d1 + dm + dl, st3)

/-- The DMG code rates with a case in the bit-expansion ladder
(wifi-phy.cc:818-829). -/
def dmgCodeRateSupported (r : WifiCodeRate) : Prop :=
  r = .R1_4 ∨ r = .R1_2 ∨ r = .R13_16 ∨ r = .R3_4 ∨ r = .R5_8

/-- The conditions under which a transmit vector's mode is supported by
every numeric path of its modulation-class branch: a positive data rate
for the rate-driven branches, and a constellation/code-rate with a table
entry for the DMG branches. -/
def ModeSupported (tx : WifiTxVector) : Prop :=
  match tx.mode.modClass with
  | .OFDM | .ERP_OFDM => 0 < tx.mode.GetDataRate tx.channelWidth false 1
  | .HT | .VHT => 0 < tx.mode.GetDataRate tx.channelWidth tx.shortGuardInterval tx.nss
  | .DSSS | .HR_DSSS => 0 < tx.mode.GetDataRate 22 false 1
  | .DMG_CTRL => True
  | .DMG_SC => (dmgScNcbpb tx.mode.constellationSize).isSome
      ∧ dmgCodeRateSupported tx.mode.codeRate
  | .DMG_OFDM => (dmgOfdmNcbps tx.mode.constellationSize).isSome
      ∧ dmgCodeRateSupported tx.mode.codeRate
  | .DMG_LP_SC => True

/-- The DMG modulation classes (whose branches compute bit counts in
`uint32_t` arithmetic). -/
def isDmgClass (c : WifiModulationClass) : Prop :=
  c = .DMG_CTRL ∨ c = .DMG_SC ∨ c = .DMG_LP_SC ∨ c = .DMG_OFDM

/-- WifiPhy::GetOfdmRate6Mbps (wifi-phy.cc:1271-1281); rate value
modelled from the spec's catalog (6 Mb/s). -/
def OfdmRate6Mbps : WifiMode :=
  ⟨"OfdmRate6Mbps", .OFDM, true, .R1_2, 2, 0, 0, 0, fun _ _ _ => 6000000⟩

/-- WifiPhy::GetDsssRate1Mbps (wifi-phy.cc:1118-1128); rate value
modelled from the spec's catalog (1 Mb/s). -/
def DsssRate1Mbps : WifiMode :=
  ⟨"DsssRate1Mbps", .DSSS, true, .UNDEFINED, 2, 0, 0, 0, fun _ _ _ => 1000000⟩

/-- WifiPhy::GetHtMcs7 (wifi-phy.cc:1624-1630); rate value modelled from
the spec's catalog (65 Mb/s at 20 MHz, long GI, one stream). -/
def HtMcs7 : WifiMode :=
  ⟨"HtMcs7", .HT, false, .UNDEFINED, 0, 7, 0, 0, fun _ _ _ => 65000000⟩

/-- WifiPhy::GetVhtMcs0 (wifi-phy.cc:1827-1833); rate value modelled from
the spec's catalog (6.5 Mb/s at 20 MHz, long GI, one stream). -/
def VhtMcs0 : WifiMode :=
  ⟨"VhtMcs0", .VHT, false, .UNDEFINED, 0, 0, 0, 0, fun _ _ _ => 6500000⟩

/-- WifiPhy::GetDMG_MCS0 (wifi-phy.cc:1948-1959). -/
def DMG_MCS0 : WifiMode :=
  ⟨"DMG_MCS0", .DMG_CTRL, true, .R1_2, 2, 0, 1880000000, 27500000,
    fun _ _ _ => 27500000⟩

/-- WifiPhy::GetDMG_MCS2 (wifi-phy.cc:1975-1986). -/
def DMG_MCS2 : WifiMode :=
  ⟨"DMG_MCS2", .DMG_SC, true, .R1_2, 2, 0, 1880000000, 770000000,
    fun _ _ _ => 770000000⟩

/-- A 20 MHz legacy-OFDM transmit vector at the given channel width. -/
def ofdmTxVector (width : ℕ) : WifiTxVector :=
  ⟨OfdmRate6Mbps, width, 1, 0, false, false, 0⟩

/-- A single-stream VHT transmit vector at 20 MHz. -/
def vhtTxVector : WifiTxVector := ⟨VhtMcs0, 20, 1, 0, false, false, 0⟩

/-- A single-stream HT transmit vector at 20 MHz. -/
def htTxVector : WifiTxVector := ⟨HtMcs7, 20, 1, 0, false, false, 0⟩

/-- A DMG control-PHY transmit vector with no beam-training field. -/
def dmgCtrlTxVector : WifiTxVector := ⟨DMG_MCS0, 2160, 1, 0, false, false, 0⟩

/-- A DMG single-carrier transmit vector with no beam-training field. -/
def dmgScTxVector : WifiTxVector := ⟨DMG_MCS2, 2160, 1, 0, false, false, 0⟩

/-- An information element: element id and body octets.  Modelled from
the spec (the WifiInformationElement base class is not under src/): an
element self-reports serialized size 2 + body length and serializes as
[id][length][body]. -/
structure WifiInformationElement where
  elementId : ℕ
  body : List ℕ
deriving DecidableEq, Repr

/-- WifiInformationElement::GetSerializedSize — Modelled from the spec:
2 + bodyLength. -/
def WifiInformationElement.GetSerializedSize (e : WifiInformationElement) : ℕ :=
  2 + e.body.length

/-- WifiInformationElement::Serialize — Modelled from the spec: the wire
record [1-byte type id][1-byte body length][body bytes]. -/
def WifiInformationElement.SerializeBytes (e : WifiInformationElement) : List ℕ :=
  e.elementId % 256 :: e.body.length % 256 :: e.body

/-- The std::map of MgtFrame (common-header.h): a key-sorted association
list from element id to a possibly-null smart pointer (`none` models a
null Ptr). -/
abbrev WifiInformationElementMap := List (ℕ × Option WifiInformationElement)

/-- std::map::find-style lookup. -/
def mapFind : WifiInformationElementMap → ℕ → Option (Option WifiInformationElement)
  | [], _ => none
  | (k, v) :: rest, id => if id = k then some v else mapFind rest id

/-- Key-ordered insert-or-assign, as performed by std::map operator[]
followed by assignment. -/
def mapInsert (id : ℕ) (v : Option WifiInformationElement) :
    WifiInformationElementMap → WifiInformationElementMap
  | [] => [(id, v)]
  | (k, w) :: rest =>
    if id < k then (id, v) :: (k, w) :: rest
    else if id = k then (id, v) :: rest
    else (k, w) :: mapInsert id v rest

/-- MgtFrame::AddWifiInformationElement (common-header.cc:41-45):
`m_map[element->ElementId ()] = element`. -/
def AddWifiInformationElement (e : WifiInformationElement)
    (m : WifiInformationElementMap) : WifiInformationElementMap :=
  mapInsert e.elementId (some e) m

/-- MgtFrame::GetInformationElement (common-header.cc:47-51):
`return m_map[id]` — std::map operator[] default-inserts a null Ptr when
the key is absent.  Returns the looked-up element and the map after the
call. -/
def GetInformationElement (m : WifiInformationElementMap) (id : ℕ) :
    Option WifiInformationElement × WifiInformationElementMap :=
  match mapFind m id with
  | some v => (v, m)
  | none => (none, mapInsert id none m)

/-- MgtFrame::GetInformationElementsSerializedSize (common-header.cc:53-64):
sums each element's self-reported size; dereferencing a null Ptr is
undefined, modelled by `none`. -/
def GetInformationElementsSerializedSize : WifiInformationElementMap → Option ℕ
  | [] => some 0
  | (_, none) :: _ => none
  | (_, some e) :: rest =>
    match GetInformationElementsSerializedSize rest with
    | none => none
    | some n => some (e.GetSerializedSize + n)

/-- MgtFrame::SerializeInformationElements (common-header.cc:78-89):
emits each element's record in map (ascending-id) order; dereferencing a
null Ptr is undefined, modelled by `none`. -/
def SerializeInformationElements : WifiInformationElementMap → Option (List ℕ)
  | [] => some []
  | (_, none) :: _ => none
  | (_, some e) :: rest =>
    match SerializeInformationElements rest with
    | none => none
    | some bs => some (e.SerializeBytes ++ bs)

/-- Modelled from the spec: the element ids having a factory case in the
deserialization switch (common-header.cc:100-162), in switch order;
the numeric values of the IE_* constants come from the referenced
standard clauses (the defining headers are not under src/). -/
def registeredIds : List ℕ :=
  [1, 50, 45, 191, 61, 42, 148, 158, 151, 150, 153, 152]

/-- MgtFrame::DeserializeInformationElements (common-header.cc:91-169).
The loop reads an id and a length (DeserializeElementID — modelled from
the spec: two bytes), dispatches on the id to build a fresh empty element
— the switch has no default, so an unregistered id leaves `element` at
its value from the previous iteration (null before the first) —, parses
exactly `length` body bytes into the element, and stores it under the id
read from the wire.  A null `element` dereference and a truncated buffer
are modelled by `none`. -/
def DeserializeInformationElements :
    List ℕ → Option WifiInformationElement → WifiInformationElementMap →
    Option WifiInformationElementMap
  | [], _, m => some m
  | [_], _, _ => none
  | id :: len :: rest, element, m =>
    let element := if id ∈ registeredIds then
        some (⟨id, []⟩ : WifiInformationElement)
      else element
    match element with
    | none => none
    | some e =>
      if len ≤ rest.length then
        let e := (⟨e.elementId, rest.take len⟩ : WifiInformationElement)
        DeserializeInformationElements (rest.drop len) (some e) (mapInsert id (some e) m)
      else none
termination_by bytes _ _ => bytes.length
decreasing_by
  simp only [List.length_drop, List.length_cons]
  omega

/-- The symbol-count target the Last-frame branch of the legacy OFDM
path compares the accumulator against (wifi-phy.cc:501-502). -/
def ofdmAggTarget (tx : WifiTxVector) (total : ℕ) : ℚ :=
  ((⌈(16 + (total : ℚ) * 8 + 6) / ofdmNumDataBitsPerSymbol tx⌉ : ℤ) : ℚ)

/-- The symbol-count target the Last-frame branch of the HT/VHT path
compares the accumulator against (wifi-phy.cc:694-695). -/
def htAggTarget (tx : WifiTxVector) (total : ℕ) : ℚ :=
  htStbcFactor tx *
    ((⌈(16 + (total : ℚ) * 8 + 6 * (htVhtNes tx : ℚ)) /
        (htStbcFactor tx * htVhtNumDataBitsPerSymbol tx)⌉ : ℤ) : ℚ)

theorem htStbcFactor_ne_zero (tx : WifiTxVector) : htStbcFactor tx ≠ 0 := by
  unfold htStbcFactor
  split <;> norm_num

theorem stbc_cancel (tx : WifiTxVector) (A N : ℚ) :
    htStbcFactor tx * A / (htStbcFactor tx * N) = A / N :=
  mul_div_mul_left A N (htStbcFactor_ne_zero tx)

theorem payload_ofdm_first (C : PhyConstants) (s : ℕ) (tx : WifiTxVector)
    (preamble : WifiPreamble) (frequency : ℚ) (inc : Bool) (st : WifiPhyState)
    (hc : tx.mode.modClass = .OFDM ∨ tx.mode.modClass = .ERP_OFDM)
    (hpre : preamble ≠ .NONE) :
    GetPayloadDuration C s tx preamble frequency .MPDU_IN_AGGREGATE inc st
      = some ((16 + (s : ℚ) * 8 + 6) / ofdmNumDataBitsPerSymbol tx
            * (ofdmSymbolDurationNs tx.channelWidth : ℚ)
            + (if tx.mode.modClass = .ERP_OFDM then 6000 else 0),
          if inc then
            ⟨st.totalAmpduSize + s, st.totalAmpduNumSymbols
              + (16 + (s : ℚ) * 8 + 6) / ofdmNumDataBitsPerSymbol tx⟩
          else st) := by
  rcases hc with hc | hc <;> simp [GetPayloadDuration, hc, hpre]

theorem payload_ofdm_middle (C : PhyConstants) (s : ℕ) (tx : WifiTxVector)
    (frequency : ℚ) (inc : Bool) (st : WifiPhyState)
    (hc : tx.mode.modClass = .OFDM ∨ tx.mode.modClass = .ERP_OFDM) :
    GetPayloadDuration C s tx .NONE frequency .MPDU_IN_AGGREGATE inc st
      = some ((s : ℚ) * 8 / ofdmNumDataBitsPerSymbol tx
            * (ofdmSymbolDurationNs tx.channelWidth : ℚ)
            + (if tx.mode.modClass = .ERP_OFDM then 6000 else 0),
          if inc then
            ⟨st.totalAmpduSize + s, st.totalAmpduNumSymbols
              + (s : ℚ) * 8 / ofdmNumDataBitsPerSymbol tx⟩
          else st) := by
  rcases hc with hc | hc <;> simp [GetPayloadDuration, hc]

theorem payload_ofdm_last (C : PhyConstants) (s : ℕ) (tx : WifiTxVector)
    (frequency : ℚ) (inc : Bool) (st : WifiPhyState)
    (hc : tx.mode.modClass = .OFDM ∨ tx.mode.modClass = .ERP_OFDM)
    (h : st.totalAmpduNumSymbols ≤ ofdmAggTarget tx (st.totalAmpduSize + s)) :
    GetPayloadDuration C s tx .NONE frequency .LAST_MPDU_IN_AGGREGATE inc st
      = some ((ofdmAggTarget tx (st.totalAmpduSize + s) - st.totalAmpduNumSymbols)
            * (ofdmSymbolDurationNs tx.channelWidth : ℚ)
            + (if tx.mode.modClass = .ERP_OFDM then 6000 else 0),
          if inc then zeroPhyState else st) := by
  simp only [ofdmAggTarget, Nat.cast_add] at h
  rcases hc with hc | hc <;>
    simp [GetPayloadDuration, hc, h, ofdmAggTarget, Nat.cast_add]

theorem payload_ofdm_normal (C : PhyConstants) (s : ℕ) (tx : WifiTxVector)
    (preamble : WifiPreamble) (frequency : ℚ) (inc : Bool) (st : WifiPhyState)
    (hc : tx.mode.modClass = .OFDM ∨ tx.mode.modClass = .ERP_OFDM)
    (hpre : preamble ≠ .NONE) :
    GetPayloadDuration C s tx preamble frequency .NORMAL_MPDU inc st
      = some (((⌈(16 + (s : ℚ) * 8 + 6) / ofdmNumDataBitsPerSymbol tx⌉ : ℤ) : ℚ)
            * (ofdmSymbolDurationNs tx.channelWidth : ℚ)
            + (if tx.mode.modClass = .ERP_OFDM then 6000 else 0), st) := by
  rcases hc with hc | hc <;> simp [GetPayloadDuration, hc, hpre]

theorem payload_ht_first (C : PhyConstants) (s : ℕ) (tx : WifiTxVector)
    (preamble : WifiPreamble) (frequency : ℚ) (inc : Bool) (st : WifiPhyState)
    (hc : tx.mode.modClass = .HT ∨ tx.mode.modClass = .VHT) (hpre : preamble ≠ .NONE) :
    GetPayloadDuration C s tx preamble frequency .MPDU_IN_AGGREGATE inc st
      = some ((16 + (s : ℚ) * 8 + 6 * (htVhtNes tx : ℚ)) / htVhtNumDataBitsPerSymbol tx
            * htVhtSymbolDurationNs tx,
          if inc then
            ⟨st.totalAmpduSize + s, st.totalAmpduNumSymbols
              + (16 + (s : ℚ) * 8 + 6 * (htVhtNes tx : ℚ)) / htVhtNumDataBitsPerSymbol tx⟩
          else st) := by
  rcases hc with hc | hc <;>
    simp [GetPayloadDuration, hc, hpre, stbc_cancel]

theorem payload_ht_middle (C : PhyConstants) (s : ℕ) (tx : WifiTxVector)
    (frequency : ℚ) (inc : Bool) (st : WifiPhyState)
    (hc : tx.mode.modClass = .HT ∨ tx.mode.modClass = .VHT) :
    GetPayloadDuration C s tx .NONE frequency .MPDU_IN_AGGREGATE inc st
      = some ((s : ℚ) * 8 / htVhtNumDataBitsPerSymbol tx * htVhtSymbolDurationNs tx,
          if inc then
            ⟨st.totalAmpduSize + s, st.totalAmpduNumSymbols
              + (s : ℚ) * 8 / htVhtNumDataBitsPerSymbol tx⟩
          else st) := by
  rcases hc with hc | hc <;>
    simp [GetPayloadDuration, hc, mul_assoc, stbc_cancel]

theorem payload_ht_last (C : PhyConstants) (s : ℕ) (tx : WifiTxVector)
    (frequency : ℚ) (inc : Bool) (st : WifiPhyState)
    (hc : tx.mode.modClass = .HT ∨ tx.mode.modClass = .VHT)
    (h : st.totalAmpduNumSymbols ≤ htAggTarget tx (st.totalAmpduSize + s)) :
    GetPayloadDuration C s tx .NONE frequency .LAST_MPDU_IN_AGGREGATE inc st
      = some ((htAggTarget tx (st.totalAmpduSize + s) - st.totalAmpduNumSymbols)
              * htVhtSymbolDurationNs tx
            + (if tx.mode.modClass = .HT ∧ 2400 ≤ frequency ∧ frequency ≤ 2500
               then 6000 else 0),
          if inc then zeroPhyState else st) := by
  simp only [htAggTarget, Nat.cast_add] at h
  rcases hc with hc | hc <;>
    simp [GetPayloadDuration, hc, h, htAggTarget, Nat.cast_add] <;>
    split_ifs <;> simp <;> ring

theorem payload_ht_normal (C : PhyConstants) (s : ℕ) (tx : WifiTxVector)
    (preamble : WifiPreamble) (frequency : ℚ) (inc : Bool) (st : WifiPhyState)
    (hc : tx.mode.modClass = .HT ∨ tx.mode.modClass = .VHT) (hpre : preamble ≠ .NONE) :
    GetPayloadDuration C s tx preamble frequency .NORMAL_MPDU inc st
      = some (htAggTarget tx s * htVhtSymbolDurationNs tx
            + (if tx.mode.modClass = .HT ∧ 2400 ≤ frequency ∧ frequency ≤ 2500
               then 6000 else 0), st) := by
  rcases hc with hc | hc <;>
    simp [GetPayloadDuration, hc, hpre, htAggTarget] <;>
    split_ifs <;> simp <;> ring


/-- C2: the legacy-OFDM arm of GetPlcpPreambleDuration switches on the
transmit vector's channel width against the labels 20000000 / 10000000 /
5000000, while the width is carried in MHz (the sibling functions switch
on 5 / 10 / 20); the widths 5, 10 and 20 MHz therefore all fall into the
default label and yield the same 16 µs preamble — no two of them give
distinct values. -/
theorem plcp_preamble_width_units_collapse :
    GetPlcpPreambleDuration (ofdmTxVector 20) .LONG = 16000 ∧
    GetPlcpPreambleDuration (ofdmTxVector 10) .LONG = 16000 ∧
    GetPlcpPreambleDuration (ofdmTxVector 5) .LONG = 16000 := by
  exact ⟨rfl, rfl, rfl⟩

/-- C7: OFDM at 6 Mb/s, 20 MHz, Normal MPDU, 1000-byte payload: the data
bits per symbol are 24, the symbol count is ceil((16+8000+6)/24) = 335,
and the payload duration is 335 × 4 µs = 1340 µs. -/
theorem ofdm_scenario_a :
    ofdmNumDataBitsPerSymbol (ofdmTxVector 20) = 24 ∧
    (⌈(16 + (1000 : ℚ) * 8 + 6) / ofdmNumDataBitsPerSymbol (ofdmTxVector 20)⌉ : ℤ) = 335 ∧
    GetPayloadDuration ⟨0, 0⟩ 1000 (ofdmTxVector 20) .LONG 5180 .NORMAL_MPDU false zeroPhyState
      = some (1340000, zeroPhyState) := by
  have h24 : ofdmNumDataBitsPerSymbol (ofdmTxVector 20) = 24 := by
    norm_num [ofdmNumDataBitsPerSymbol, ofdmTxVector, OfdmRate6Mbps,
      WifiMode.GetDataRate, ofdmSymbolDurationNs]
  refine ⟨h24, ?_, ?_⟩
  · rw [h24]
    norm_num [Int.ceil_eq_iff]
  · rw [payload_ofdm_normal _ _ _ _ _ _ _ (Or.inl rfl) (by decide), h24]
    rw [if_neg (by decide)]
    norm_num
    rw [show ⌈(1337 / 4 : ℚ)⌉ = 335 from by rw [Int.ceil_eq_iff]; norm_num]
    norm_num [ofdmSymbolDurationNs, ofdmTxVector]

/-- C1 (counterexample): in the DMG-Control branch with no training field
a zero-size payload gives Ncw = 1 + ceil(-48/168) = 1, so the per-codeword
bit count Ldpcw divides by Ncw - 1 = 0; the double division produces an
infinity whose uint32_t cast is undefined — the call is not well-defined
(the embedding returns `none` exactly on that division). -/
theorem payload_zero_size_dmg_ctrl_div_by_zero :
    GetPayloadDuration ⟨0, 0⟩ 0 dmgCtrlTxVector .LONG 60480 .NORMAL_MPDU false zeroPhyState
      = none := by
  show (if dmgCtrlNcw 0 = 1 then _ else _) = none
  norm_num [dmgCtrlNcw, Int.ceil_eq_iff]

/-- C6 (counterexample): a VHT Normal MPDU with a preamble at 2437 MHz —
in the 2.4 GHz band and terminating the transmission — gets no 6 µs tail:
the duration is exactly 32 symbols × 4 µs = 128 µs rather than 134 µs,
because the tail test demands the HT modulation class (wifi-phy.cc:714). -/
theorem vht_no_tail_at_2_4ghz :
    GetPayloadDuration ⟨0, 0⟩ 100 vhtTxVector .VHT 2437 .NORMAL_MPDU false zeroPhyState
      = some (32 * 4000, zeroPhyState) ∧
    ((2400 : ℚ) ≤ 2437 ∧ (2437 : ℚ) ≤ 2500) ∧
    (32 * 4000 : ℚ) ≠ 32 * 4000 + 6000 := by
  refine ⟨?_, by norm_num, by norm_num⟩
  rw [payload_ht_normal _ _ _ _ _ _ _ (Or.inr rfl) (by decide)]
  have h1 : htVhtNes vhtTxVector = 1 := by decide
  have h2 : htVhtNumDataBitsPerSymbol vhtTxVector = 26 := by
    norm_num [htVhtNumDataBitsPerSymbol, vhtTxVector, VhtMcs0, WifiMode.GetDataRate,
      htVhtSymbolDurationNs]
  have h3 : htStbcFactor vhtTxVector = 1 := by norm_num [htStbcFactor, vhtTxVector]
  have h4 : htVhtSymbolDurationNs vhtTxVector = 4000 := by
    norm_num [htVhtSymbolDurationNs, vhtTxVector]
  have h5 : vhtTxVector.mode.modClass = .VHT := rfl
  simp only [htAggTarget, h1, h2, h3, h4, h5]
  rw [if_neg (by decide)]
  norm_num
  rw [show ⌈(411/13 : ℚ)⌉ = 32 from by rw [Int.ceil_eq_iff]; norm_num]
  norm_num

/-- C8 (counterexample): for a DMG-SC mode with code rate 1/2 the coded
bit count `Ncbits = Nbits * 2` is computed in `uint32_t` and wraps: a
2^28-byte payload gives Ncbits = 2^32 mod 2^32 = 0 and a 37 ns duration,
while a 1-byte payload gives 619 ns — PayloadDuration is not
monotonically non-decreasing in the payload size. -/
theorem payload_duration_not_monotone_u32 :
    GetPayloadDuration ⟨0, 0⟩ 1 dmgScTxVector .LONG 60480 .NORMAL_MPDU false zeroPhyState
      = some (619, zeroPhyState) ∧
    GetPayloadDuration ⟨0, 0⟩ 268435456 dmgScTxVector .LONG 60480 .NORMAL_MPDU false zeroPhyState
      = some (37, zeroPhyState) ∧
    (1 : ℕ) ≤ 268435456 ∧ ¬ ((619 : ℚ) ≤ 37) := by
  refine ⟨?_, ?_, by norm_num, by norm_num⟩
  · simp only [GetPayloadDuration, dmgScTxVector, DMG_MCS2, dmgScNcbpb, dmgCodedBits,
      dmgScTData]
    norm_num [u32, U32MOD]
    rw [show ⌈(1/42 : ℚ)⌉ = 1 from by rw [Int.ceil_eq_iff]; norm_num]
    norm_num
    rw [show ⌈(3/2 : ℚ)⌉ = 2 from by rw [Int.ceil_eq_iff]; norm_num]
    norm_num
    rw [show Int.toNat 2 = (2 : ℕ) from rfl]
    norm_num
    rw [show ⌈(6800/11 : ℚ)⌉ = 619 from by rw [Int.ceil_eq_iff]; norm_num]
    rw [show Int.toNat 619 = (619 : ℕ) from rfl]
    norm_num
  · simp only [GetPayloadDuration, dmgScTxVector, DMG_MCS2, dmgScNcbpb, dmgCodedBits,
      dmgScTData]
    norm_num [u32, U32MOD]
    rw [show ⌈(400/11 : ℚ)⌉ = 37 from by rw [Int.ceil_eq_iff]; norm_num]
    rw [show Int.toNat 37 = (37 : ℕ) from rfl]
    norm_num

/-- C5: a call with the commit flag clear never mutates the aggregation
accumulator: whenever the call returns, the state it returns is exactly
the state it was given, for every input. -/
theorem payload_no_commit_pure (C : PhyConstants) (size : ℕ) (tx : WifiTxVector)
    (preamble : WifiPreamble) (frequency : ℚ) (mpdutype : MpduType)
    (st : WifiPhyState) (d : ℚ) (st' : WifiPhyState)
    (h : GetPayloadDuration C size tx preamble frequency mpdutype false st = some (d, st')) :
    st' = st := by
  unfold GetPayloadDuration at h
  cases hc : tx.mode.modClass <;> rw [hc] at h <;>
    simp only [Bool.false_eq_true, if_false] at h <;>
    (repeat' split at h) <;>
    simp_all

/-- C5 witness. -/
theorem payload_no_commit_pure_witness : zeroPhyState = zeroPhyState :=
  payload_no_commit_pure ⟨0, 0⟩ 1000 (ofdmTxVector 20) .LONG 5180 .NORMAL_MPDU
    zeroPhyState 1340000 zeroPhyState
    (by rw [payload_ofdm_normal _ _ _ _ _ _ _ (Or.inl rfl) (by decide)]
        have h24 : ofdmNumDataBitsPerSymbol (ofdmTxVector 20) = 24 := by
          norm_num [ofdmNumDataBitsPerSymbol, ofdmTxVector, OfdmRate6Mbps,
            WifiMode.GetDataRate, ofdmSymbolDurationNs]
        rw [h24]
        rw [if_neg (by decide)]
        norm_num
        rw [show ⌈(1337 / 4 : ℚ)⌉ = 335 from by rw [Int.ceil_eq_iff]; norm_num]
        norm_num [ofdmSymbolDurationNs, ofdmTxVector])

theorem mapInsert_length_of_absent (id : ℕ) (v : Option WifiInformationElement) :
    ∀ m : WifiInformationElementMap, mapFind m id = none →
      (mapInsert id v m).length = m.length + 1 := by
  intro m
  induction m with
  | nil => intro _; rfl
  | cons hd rest ih =>
    intro habs
    obtain ⟨k, w⟩ := hd
    simp only [mapFind] at habs
    by_cases hk : id = k
    · simp [hk] at habs
    · simp only [mapInsert]
      by_cases hlt : id < k
      · rw [if_pos hlt]
        rfl
      · rw [if_neg hlt, if_neg hk]
        simp only [List.length_cons]
        rw [ih (by simpa [hk] using habs)]

theorem mapInsert_mem_self (id : ℕ) (v : Option WifiInformationElement) :
    ∀ m : WifiInformationElementMap, (id, v) ∈ mapInsert id v m := by
  intro m
  induction m with
  | nil => simp [mapInsert]
  | cons hd rest ih =>
    obtain ⟨k, w⟩ := hd
    simp only [mapInsert]
    split
    · exact List.mem_cons_self _ _
    · split
      · exact List.mem_cons_self _ _
      · exact List.mem_cons_of_mem _ ih

theorem serializedSize_none_of_mem (k : ℕ) :
    ∀ m : WifiInformationElementMap, (k, (none : Option WifiInformationElement)) ∈ m →
      GetInformationElementsSerializedSize m = none := by
  intro m
  induction m with
  | nil => intro h; cases h
  | cons hd rest ih =>
    intro hmem
    obtain ⟨k', w⟩ := hd
    rcases List.mem_cons.mp hmem with heq | htail
    · simp only [Prod.mk.injEq] at heq
      obtain ⟨rfl, rfl⟩ := heq
      rfl
    · cases w with
      | none => rfl
      | some e =>
        simp only [GetInformationElementsSerializedSize]
        rw [ih htail]

theorem serialize_none_of_mem (k : ℕ) :
    ∀ m : WifiInformationElementMap, (k, (none : Option WifiInformationElement)) ∈ m →
      SerializeInformationElements m = none := by
  intro m
  induction m with
  | nil => intro h; cases h
  | cons hd rest ih =>
    intro hmem
    obtain ⟨k', w⟩ := hd
    rcases List.mem_cons.mp hmem with heq | htail
    · simp only [Prod.mk.injEq] at heq
      obtain ⟨rfl, rfl⟩ := heq
      rfl
    · cases w with
      | none => rfl
      | some e =>
        simp only [SerializeInformationElements]
        rw [ih htail]

/-- C10: GetInformationElement on an absent id is not read-only: it
returns a null element, yet inserts that null element under the id, so
the element count grows by one and a subsequent
GetInformationElementsSerializedSize or SerializeInformationElements
traverses the null entry (a null-Ptr dereference, modelled `none`). -/
theorem get_information_element_mutates (m : WifiInformationElementMap) (id : ℕ)
    (habs : mapFind m id = none) :
    (GetInformationElement m id).1 = none ∧
    ((GetInformationElement m id).2).length = m.length + 1 ∧
    GetInformationElementsSerializedSize (GetInformationElement m id).2 = none ∧
    SerializeInformationElements (GetInformationElement m id).2 = none := by
  unfold GetInformationElement
  rw [habs]
  refine ⟨rfl, mapInsert_length_of_absent id none m habs, ?_, ?_⟩
  · exact serializedSize_none_of_mem id _ (mapInsert_mem_self id none m)
  · exact serialize_none_of_mem id _ (mapInsert_mem_self id none m)

/-- C10 witness. -/
theorem get_information_element_mutates_witness :
    (GetInformationElement [(2, some ⟨2, [7]⟩)] 5).1 = none ∧
    ((GetInformationElement [(2, some ⟨2, [7]⟩)] 5).2).length = 2 ∧
    GetInformationElementsSerializedSize (GetInformationElement [(2, some ⟨2, [7]⟩)] 5).2 = none ∧
    SerializeInformationElements (GetInformationElement [(2, some ⟨2, [7]⟩)] 5).2 = none :=
  get_information_element_mutates [(2, some ⟨2, [7]⟩)] 5 (by decide)

/-- The hypotheses of the round-trip property for one container entry:
the element is non-null, self-reports its map key as its id, the id has a
factory in the deserialization switch, and id and body length fit their
wire bytes. -/
def wellFormedEntry : ℕ × Option WifiInformationElement → Prop
  | (_, none) => False
  | (id, some e) => e.elementId = id ∧ id ∈ registeredIds ∧ id < 256 ∧ e.body.length ≤ 255

instance wellFormedEntryDecidable : DecidablePred wellFormedEntry := fun x =>
  match x with
  | (_, none) => isFalse (fun h => h)
  | (_, some _) => inferInstanceAs (Decidable (_ ∧ _ ∧ _ ∧ _))

theorem mapInsert_append (id : ℕ) (v : Option WifiInformationElement) :
    ∀ acc : WifiInformationElementMap, (∀ k ∈ acc.map Prod.fst, k < id) →
      mapInsert id v acc = acc ++ [(id, v)] := by
  intro acc
  induction acc with
  | nil => intro _; rfl
  | cons hd rest ih =>
    intro hlt
    obtain ⟨k, w⟩ := hd
    have hk : k < id := hlt k (by simp)
    simp only [mapInsert]
    rw [if_neg (by omega), if_neg (by omega)]
    rw [ih (fun k' hk' => hlt k' (by simp [hk']))]
    rfl

theorem deserialize_serialize_aux :
    ∀ m : WifiInformationElementMap,
      List.Pairwise (fun x y => x.1 < y.1) m →
      (∀ x ∈ m, wellFormedEntry x) →
      ∀ (acc : WifiInformationElementMap) (elem : Option WifiInformationElement),
        (∀ k ∈ acc.map Prod.fst, ∀ x ∈ m, k < x.1) →
        ∃ bs, SerializeInformationElements m = some bs ∧
          DeserializeInformationElements bs elem acc = some (acc ++ m) := by
  intro m
  induction m with
  | nil =>
    intro _ _ acc elem _
    exact ⟨[], rfl, by simp [DeserializeInformationElements]⟩
  | cons hd rest ih =>
    intro hsort hwf acc elem hacc
    obtain ⟨id, v⟩ := hd
    have hwfh := hwf (id, v) (List.mem_cons_self _ _)
    cases v with
    | none => exact absurd hwfh (fun h => h)
    | some e =>
      obtain ⟨heid, hreg, hid256, hlen⟩ := hwfh
      obtain ⟨hlt_rest, hsort'⟩ := List.pairwise_cons.mp hsort
      obtain ⟨bs', hser', hdeser'⟩ :=
        ih hsort' (fun x hx => hwf x (List.mem_cons_of_mem _ hx))
          (acc ++ [(id, some e)]) (some e)
          (by
            intro k hkmem x hx
            rcases List.mem_map.mp hkmem with ⟨⟨k', w'⟩, hmem', rfl⟩
            rcases List.mem_append.mp hmem' with hin | hone
            · exact hacc _ (List.mem_map.mpr ⟨_, hin, rfl⟩) x (List.mem_cons_of_mem _ hx)
            · simp only [List.mem_singleton] at hone
              cases hone
              exact hlt_rest x hx)
      refine ⟨e.SerializeBytes ++ bs', ?_, ?_⟩
      · show (match SerializeInformationElements rest with
          | none => none
          | some bs => some (e.SerializeBytes ++ bs)) = _
        rw [hser']
      · have hbytes : e.SerializeBytes ++ bs'
            = id :: e.body.length :: (e.body ++ bs') := by
          simp only [WifiInformationElement.SerializeBytes, List.cons_append]
          rw [heid, Nat.mod_eq_of_lt hid256,
            Nat.mod_eq_of_lt (Nat.lt_of_le_of_lt hlen (by norm_num))]
        rw [hbytes]
        simp only [DeserializeInformationElements]
        rw [if_pos hreg]
        dsimp only
        have htake : (e.body ++ bs').take e.body.length = e.body := by simp
        have hdrop : (e.body ++ bs').drop e.body.length = bs' := by simp
        rw [if_pos (by simp)]
        simp only [htake, hdrop]
        have he : (⟨(⟨id, ([] : List ℕ)⟩ : WifiInformationElement).elementId, e.body⟩
            : WifiInformationElement) = e := by
          cases e
          simp_all
        rw [he, mapInsert_append id (some e) acc
          (fun k hk => hacc k hk (id, some e) (List.mem_cons_self _ _)), hdeser']
        simp

/-- C9: deserializing the byte string produced by serializing an element
container whose entries are all non-null, registered, and correctly
self-sized reproduces exactly the same container — the same (id, body)
pairs, byte for byte. -/
theorem element_container_roundtrip (m : WifiInformationElementMap)
    (hsort : List.Pairwise (fun x y => x.1 < y.1) m)
    (hwf : ∀ x ∈ m, wellFormedEntry x) :
    ∃ bs, SerializeInformationElements m = some bs ∧
      DeserializeInformationElements bs none [] = some m := by
  obtain ⟨bs, h1, h2⟩ := deserialize_serialize_aux m hsort hwf [] none (by intro k hk; cases hk)
  exact ⟨bs, h1, by simpa using h2⟩

/-- C9 witness. -/
theorem element_container_roundtrip_witness :
    ∃ bs, SerializeInformationElements
        [(1, some ⟨1, [3, 7]⟩), (45, some ⟨45, []⟩)] = some bs ∧
      DeserializeInformationElements bs none []
        = some [(1, some ⟨1, [3, 7]⟩), (45, some ⟨45, []⟩)] :=
  element_container_roundtrip [(1, some ⟨1, [3, 7]⟩), (45, some ⟨45, []⟩)]
    (by decide) (by decide)

theorem ofdmSymbolDurationNs_pos (w : ℕ) : 0 < ((ofdmSymbolDurationNs w : ℕ) : ℚ) := by
  unfold ofdmSymbolDurationNs
  split_ifs <;> norm_num

theorem htVhtSymbolDurationNs_pos (tx : WifiTxVector) : 0 < htVhtSymbolDurationNs tx := by
  unfold htVhtSymbolDurationNs
  split_ifs <;> norm_num

theorem htStbcFactor_pos (tx : WifiTxVector) : 0 < htStbcFactor tx := by
  unfold htStbcFactor
  split_ifs <;> norm_num

/-- C1 (amended): for every supported configuration of every modulation
class except DMG-Control with a zero training-field length — where size 0
makes Ncw = 1 and the per-codeword bit count divides by Ncw - 1 = 0 — a
zero-size payload yields a well-defined, non-negative duration. -/
theorem payload_zero_size_nonneg_amended
    (C : PhyConstants) (tx : WifiTxVector) (preamble : WifiPreamble)
    (frequency : ℚ) (st : WifiPhyState)
    (hsup : ModeSupported tx) (hpre : preamble ≠ .NONE)
    (hctrl : tx.mode.modClass = .DMG_CTRL → tx.trainingFieldLength ≠ 0) :
    ∃ d st', GetPayloadDuration C 0 tx preamble frequency .NORMAL_MPDU false st
      = some (d, st') ∧ 0 ≤ d := by
  cases hc : tx.mode.modClass
  case OFDM | ERP_OFDM =>
    simp only [ModeSupported, hc] at hsup
    have hN : 0 < ofdmNumDataBitsPerSymbol tx :=
      div_pos (mul_pos hsup (ofdmSymbolDurationNs_pos _)) (by norm_num)
    refine ⟨_, _, payload_ofdm_normal C 0 tx preamble frequency false st
      (by simp [hc]) hpre, ?_⟩
    apply add_nonneg
    · apply mul_nonneg
      · exact_mod_cast Int.ceil_nonneg (div_nonneg (by norm_num) hN.le)
      · exact Nat.cast_nonneg _
    · split <;> norm_num
  case HT | VHT =>
    simp only [ModeSupported, hc] at hsup
    have hN : 0 < htVhtNumDataBitsPerSymbol tx :=
      div_pos (mul_pos hsup (htVhtSymbolDurationNs_pos _)) (by norm_num)
    refine ⟨_, _, payload_ht_normal C 0 tx preamble frequency false st
      (by simp [hc]) hpre, ?_⟩
    apply add_nonneg
    · apply mul_nonneg
      · apply mul_nonneg (htStbcFactor_pos tx).le
        exact_mod_cast Int.ceil_nonneg
          (div_nonneg (by positivity) (mul_pos (htStbcFactor_pos tx) hN).le)
      · exact (htVhtSymbolDurationNs_pos tx).le
    · split <;> norm_num
  case DSSS | HR_DSSS =>
    simp only [GetPayloadDuration, hc]
    refine ⟨_, _, rfl, ?_⟩
    have h0 : ((0 : ℕ) : ℚ) * 8 / (tx.mode.GetDataRate 22 false 1 / 1000000) = 0 := by
      norm_num
    rw [h0]
    norm_num
  case DMG_CTRL =>
    simp only [GetPayloadDuration, hc]
    rw [if_neg (hctrl hc)]
    refine ⟨_, _, rfl, ?_⟩
    exact_mod_cast Int.ceil_nonneg (by positivity)
  case DMG_SC =>
    simp only [ModeSupported, hc] at hsup
    obtain ⟨hncbSome, hcr⟩ := hsup
    obtain ⟨ncb, hncb⟩ := Option.isSome_iff_exists.mp hncbSome
    obtain ⟨nb, hnb⟩ : ∃ nb, dmgCodedBits (u32 (0 * 8)) tx.mode.codeRate = some nb := by
      rcases hcr with h | h | h | h | h <;> rw [h] <;> exact ⟨_, rfl⟩
    simp only [GetPayloadDuration, hc, hncb, hnb]
    exact ⟨_, _, rfl, Nat.cast_nonneg _⟩
  case DMG_OFDM =>
    simp only [ModeSupported, hc] at hsup
    obtain ⟨hncbSome, hcr⟩ := hsup
    obtain ⟨ncb, hncb⟩ := Option.isSome_iff_exists.mp hncbSome
    obtain ⟨nb, hnb⟩ : ∃ nb, dmgCodedBits (u32 (0 * 8)) tx.mode.codeRate = some nb := by
      rcases hcr with h | h | h | h | h <;> rw [h] <;> exact ⟨_, rfl⟩
    simp only [GetPayloadDuration, hc, hncb, hnb]
    exact ⟨_, _, rfl, Nat.cast_nonneg _⟩
  case DMG_LP_SC =>
    simp only [GetPayloadDuration, hc]
    exact ⟨_, _, rfl, le_refl 0⟩

/-- C1 (amended) witness. -/
theorem payload_zero_size_nonneg_amended_witness :
    ∃ d st', GetPayloadDuration ⟨0, 0⟩ 0 (ofdmTxVector 20) .LONG 5180 .NORMAL_MPDU
      false zeroPhyState = some (d, st') ∧ 0 ≤ d :=
  payload_zero_size_nonneg_amended ⟨0, 0⟩ (ofdmTxVector 20) .LONG 5180 zeroPhyState
    (by norm_num [ModeSupported, ofdmTxVector, OfdmRate6Mbps, WifiMode.GetDataRate])
    (by decide) (by decide)

theorem runMiddles_ofdm (C : PhyConstants) (tx : WifiTxVector) (frequency : ℚ)
    (hc : tx.mode.modClass = .OFDM) :
    ∀ (mids : List ℕ) (st : WifiPhyState),
      runMiddles C tx frequency mids st
        = some ((mids.sum : ℚ) * 8 / ofdmNumDataBitsPerSymbol tx
              * (ofdmSymbolDurationNs tx.channelWidth : ℚ),
            ⟨st.totalAmpduSize + mids.sum,
             st.totalAmpduNumSymbols + (mids.sum : ℚ) * 8 / ofdmNumDataBitsPerSymbol tx⟩) := by
  intro mids
  induction mids with
  | nil =>
    intro st
    simp [runMiddles]
  | cons s rest ih =>
    intro st
    simp only [runMiddles, payload_ofdm_middle C s tx frequency true st (Or.inl hc), ih]
    simp only [hc, List.sum_cons, Nat.cast_add, if_true, Option.some.injEq, Prod.mk.injEq,
      WifiPhyState.mk.injEq]
    refine ⟨?_, ?_, ?_⟩
    · simp only [reduceCtorEq, if_false]
      ring
    · omega
    · push_cast
      ring

theorem runMiddles_ht (C : PhyConstants) (tx : WifiTxVector) (frequency : ℚ)
    (hc : tx.mode.modClass = .HT ∨ tx.mode.modClass = .VHT) :
    ∀ (mids : List ℕ) (st : WifiPhyState),
      runMiddles C tx frequency mids st
        = some ((mids.sum : ℚ) * 8 / htVhtNumDataBitsPerSymbol tx
              * htVhtSymbolDurationNs tx,
            ⟨st.totalAmpduSize + mids.sum,
             st.totalAmpduNumSymbols + (mids.sum : ℚ) * 8 / htVhtNumDataBitsPerSymbol tx⟩) := by
  intro mids
  induction mids with
  | nil =>
    intro st
    simp [runMiddles]
  | cons s rest ih =>
    intro st
    simp only [runMiddles, payload_ht_middle C s tx frequency true st hc, ih]
    simp only [List.sum_cons, Nat.cast_add, if_true, Option.some.injEq, Prod.mk.injEq,
      WifiPhyState.mk.injEq]
    refine ⟨by ring, by omega, by push_cast; ring⟩

theorem runMiddles_ofdm_erp (C : PhyConstants) (tx : WifiTxVector) (frequency : ℚ)
    (hc : tx.mode.modClass = .OFDM ∨ tx.mode.modClass = .ERP_OFDM) :
    ∀ (mids : List ℕ) (st : WifiPhyState),
      runMiddles C tx frequency mids st
        = some ((mids.sum : ℚ) * 8 / ofdmNumDataBitsPerSymbol tx
              * (ofdmSymbolDurationNs tx.channelWidth : ℚ)
              + (mids.length : ℚ) * (if tx.mode.modClass = .ERP_OFDM then 6000 else 0),
            ⟨st.totalAmpduSize + mids.sum,
             st.totalAmpduNumSymbols + (mids.sum : ℚ) * 8 / ofdmNumDataBitsPerSymbol tx⟩) := by
  intro mids
  induction mids with
  | nil =>
    intro st
    simp [runMiddles]
  | cons s rest ih =>
    intro st
    simp only [runMiddles, payload_ofdm_middle C s tx frequency true st hc, ih]
    simp only [List.sum_cons, List.length_cons, Nat.cast_add, Nat.cast_one, if_true,
      Option.some.injEq, Prod.mk.injEq, WifiPhyState.mk.injEq]
    refine ⟨?_, ?_, ?_⟩
    · ring
    · omega
    · push_cast
      ring

theorem runBurst_eq (C : PhyConstants) (tx : WifiTxVector) (preamble : WifiPreamble)
    (frequency : ℚ) (s1 : ℕ) (mids : List ℕ) (sLast : ℕ) (st : WifiPhyState)
    (d1 dm dl : ℚ) (st1 st2 st3 : WifiPhyState)
    (h1 : GetPayloadDuration C s1 tx preamble frequency .MPDU_IN_AGGREGATE true st
      = some (d1, st1))
    (hm : runMiddles C tx frequency mids st1 = some (dm, st2))
    (hl : GetPayloadDuration C sLast tx .NONE frequency .LAST_MPDU_IN_AGGREGATE true st2
      = some (dl, st3)) :
    runBurst C tx preamble frequency s1 mids sLast st = some (d1 + dm + dl, st3) := by
  simp only [runBurst, h1, hm, hl]

/-- N_DBPS of the branch selected by the transmit vector's class. -/
def payloadNumDataBitsPerSymbol (tx : WifiTxVector) : ℚ :=
  match tx.mode.modClass with
  | .HT | .VHT => htVhtNumDataBitsPerSymbol tx
  | _ => ofdmNumDataBitsPerSymbol tx

/-- Symbol duration of the branch selected by the transmit vector's class. -/
def payloadSymbolDurationNs (tx : WifiTxVector) : ℚ :=
  match tx.mode.modClass with
  | .HT | .VHT => htVhtSymbolDurationNs tx
  | _ => (ofdmSymbolDurationNs tx.channelWidth : ℚ)

theorem abs_sub_le_of_eq {a b c : ℚ} (h : a = b) (hc : 0 ≤ c) : |a - b| ≤ c := by
  simp [h, hc]

/-- C3: for legacy OFDM and HT/VHT, splitting a payload of size S into a
committed First / Middle* / Last burst on a zero accumulator yields a
total duration equal (here: exactly, hence within one symbol duration) to
the duration of a single Normal MPDU of size S. -/
theorem aggregation_conservation (C : PhyConstants) (tx : WifiTxVector)
    (preamble : WifiPreamble) (frequency : ℚ) (s1 sLast : ℕ) (mids : List ℕ)
    (hclass : tx.mode.modClass = .OFDM ∨ tx.mode.modClass = .HT ∨ tx.mode.modClass = .VHT)
    (hpre : preamble ≠ .NONE)
    (hN : 0 < payloadNumDataBitsPerSymbol tx) :
    ∃ dBurst stB dNormal stN,
      runBurst C tx preamble frequency s1 mids sLast zeroPhyState = some (dBurst, stB) ∧
      GetPayloadDuration C (s1 + mids.sum + sLast) tx preamble frequency .NORMAL_MPDU false
        zeroPhyState = some (dNormal, stN) ∧
      |dBurst - dNormal| ≤ payloadSymbolDurationNs tx := by
  rcases hclass with hc | hc
  · -- legacy OFDM
    have hN' : 0 < ofdmNumDataBitsPerSymbol tx := by
      simpa [payloadNumDataBitsPerSymbol, hc] using hN
    have h1 : GetPayloadDuration C s1 tx preamble frequency .MPDU_IN_AGGREGATE true zeroPhyState
        = some ((16 + (s1 : ℚ) * 8 + 6) / ofdmNumDataBitsPerSymbol tx
              * (ofdmSymbolDurationNs tx.channelWidth : ℚ),
            ⟨s1, (16 + (s1 : ℚ) * 8 + 6) / ofdmNumDataBitsPerSymbol tx⟩) := by
      rw [payload_ofdm_first C s1 tx preamble frequency true zeroPhyState (Or.inl hc) hpre]
      simp [hc, zeroPhyState]
    have hm := runMiddles_ofdm C tx frequency hc mids
      ⟨s1, (16 + (s1 : ℚ) * 8 + 6) / ofdmNumDataBitsPerSymbol tx⟩
    dsimp only at hm
    have hassert : ((16 + (s1 : ℚ) * 8 + 6) / ofdmNumDataBitsPerSymbol tx
          + (mids.sum : ℚ) * 8 / ofdmNumDataBitsPerSymbol tx)
        ≤ ofdmAggTarget tx (s1 + mids.sum + sLast) := by
      have e1 : (16 + (s1 : ℚ) * 8 + 6) / ofdmNumDataBitsPerSymbol tx
          + (mids.sum : ℚ) * 8 / ofdmNumDataBitsPerSymbol tx
          = (16 + ((s1 : ℚ) + (mids.sum : ℚ)) * 8 + 6) / ofdmNumDataBitsPerSymbol tx := by
        ring
      rw [e1, ofdmAggTarget]
      refine le_trans ?_ (Int.le_ceil _)
      apply (div_le_div_right hN').mpr
      have hl0 : (0 : ℚ) ≤ (sLast : ℚ) := Nat.cast_nonneg _
      push_cast
      linarith
    have hl := payload_ofdm_last C sLast tx frequency true
      ⟨s1 + mids.sum, (16 + (s1 : ℚ) * 8 + 6) / ofdmNumDataBitsPerSymbol tx
        + (mids.sum : ℚ) * 8 / ofdmNumDataBitsPerSymbol tx⟩
      (Or.inl hc) (by simpa using hassert)
    dsimp only at hl
    have hn := payload_ofdm_normal C (s1 + mids.sum + sLast) tx preamble frequency false
      zeroPhyState (Or.inl hc) hpre
    refine ⟨_, _, _, _,
      runBurst_eq C tx preamble frequency s1 mids sLast zeroPhyState _ _ _ _ _ _ h1 hm hl,
      hn, abs_sub_le_of_eq ?_ ?_⟩
    · simp only [ofdmAggTarget]
      push_cast
      ring
    · simp only [payloadSymbolDurationNs, hc]
      exact (ofdmSymbolDurationNs_pos _).le
  · -- HT / VHT
    have hN' : 0 < htVhtNumDataBitsPerSymbol tx := by
      rcases hc with hc | hc <;> simpa [payloadNumDataBitsPerSymbol, hc] using hN
    have hmn : htStbcFactor tx ≠ 0 := htStbcFactor_ne_zero tx
    have h1 : GetPayloadDuration C s1 tx preamble frequency .MPDU_IN_AGGREGATE true zeroPhyState
        = some ((16 + (s1 : ℚ) * 8 + 6 * (htVhtNes tx : ℚ)) / htVhtNumDataBitsPerSymbol tx
              * htVhtSymbolDurationNs tx,
            ⟨s1, (16 + (s1 : ℚ) * 8 + 6 * (htVhtNes tx : ℚ)) / htVhtNumDataBitsPerSymbol tx⟩) := by
      rw [payload_ht_first C s1 tx preamble frequency true zeroPhyState hc hpre]
      simp [zeroPhyState]
    have hm := runMiddles_ht C tx frequency hc mids
      ⟨s1, (16 + (s1 : ℚ) * 8 + 6 * (htVhtNes tx : ℚ)) / htVhtNumDataBitsPerSymbol tx⟩
    dsimp only at hm
    have hassert : ((16 + (s1 : ℚ) * 8 + 6 * (htVhtNes tx : ℚ)) / htVhtNumDataBitsPerSymbol tx
          + (mids.sum : ℚ) * 8 / htVhtNumDataBitsPerSymbol tx)
        ≤ htAggTarget tx (s1 + mids.sum + sLast) := by
      have e1 : (16 + (s1 : ℚ) * 8 + 6 * (htVhtNes tx : ℚ)) / htVhtNumDataBitsPerSymbol tx
          + (mids.sum : ℚ) * 8 / htVhtNumDataBitsPerSymbol tx
          = (16 + ((s1 : ℚ) + (mids.sum : ℚ)) * 8 + 6 * (htVhtNes tx : ℚ))
              / htVhtNumDataBitsPerSymbol tx := by
        ring
      have e2 : (16 + ((s1 : ℚ) + (mids.sum : ℚ)) * 8 + 6 * (htVhtNes tx : ℚ))
            / htVhtNumDataBitsPerSymbol tx
          ≤ (16 + (((s1 : ℕ) + mids.sum + sLast : ℕ) : ℚ) * 8 + 6 * (htVhtNes tx : ℚ))
            / htVhtNumDataBitsPerSymbol tx := by
        apply (div_le_div_right hN').mpr
        have hl0 : (0 : ℚ) ≤ (sLast : ℚ) := Nat.cast_nonneg _
        push_cast
        linarith
      have e3 : (16 + (((s1 : ℕ) + mids.sum + sLast : ℕ) : ℚ) * 8 + 6 * (htVhtNes tx : ℚ))
            / htVhtNumDataBitsPerSymbol tx
          = htStbcFactor tx *
            ((16 + (((s1 : ℕ) + mids.sum + sLast : ℕ) : ℚ) * 8 + 6 * (htVhtNes tx : ℚ))
              / (htStbcFactor tx * htVhtNumDataBitsPerSymbol tx)) := by
        rw [eq_comm, ← mul_div_assoc]
        exact stbc_cancel tx _ _
      have e4 : htStbcFactor tx *
            ((16 + (((s1 : ℕ) + mids.sum + sLast : ℕ) : ℚ) * 8 + 6 * (htVhtNes tx : ℚ))
              / (htStbcFactor tx * htVhtNumDataBitsPerSymbol tx))
          ≤ htAggTarget tx (s1 + mids.sum + sLast) := by
        rw [htAggTarget]
        exact mul_le_mul_of_nonneg_left (Int.le_ceil _) (htStbcFactor_pos tx).le
      rw [e1]
      exact le_trans e2 (le_trans (le_of_eq e3) e4)
    have hl := payload_ht_last C sLast tx frequency true
      ⟨s1 + mids.sum, (16 + (s1 : ℚ) * 8 + 6 * (htVhtNes tx : ℚ)) / htVhtNumDataBitsPerSymbol tx
        + (mids.sum : ℚ) * 8 / htVhtNumDataBitsPerSymbol tx⟩
      hc (by simpa using hassert)
    dsimp only at hl
    have hn := payload_ht_normal C (s1 + mids.sum + sLast) tx preamble frequency false
      zeroPhyState hc hpre
    refine ⟨_, _, _, _,
      runBurst_eq C tx preamble frequency s1 mids sLast zeroPhyState _ _ _ _ _ _ h1 hm hl,
      hn, abs_sub_le_of_eq ?_ ?_⟩
    · simp only [htAggTarget]
      push_cast
      ring
    · rcases hc with hc | hc <;> simp only [payloadSymbolDurationNs, hc] <;>
        exact (htVhtSymbolDurationNs_pos tx).le

/-- C3 witness. -/
theorem aggregation_conservation_witness :
    ∃ dBurst stB dNormal stN,
      runBurst ⟨0, 0⟩ (ofdmTxVector 20) .LONG 5180 100 [50] 30 zeroPhyState
        = some (dBurst, stB) ∧
      GetPayloadDuration ⟨0, 0⟩ (100 + [50].sum + 30) (ofdmTxVector 20) .LONG 5180
        .NORMAL_MPDU false zeroPhyState = some (dNormal, stN) ∧
      |dBurst - dNormal| ≤ payloadSymbolDurationNs (ofdmTxVector 20) :=
  aggregation_conservation ⟨0, 0⟩ (ofdmTxVector 20) .LONG 5180 100 30 [50]
    (Or.inl rfl) (by decide)
    (show (0 : ℚ) < ofdmNumDataBitsPerSymbol (ofdmTxVector 20) by
      norm_num [ofdmNumDataBitsPerSymbol, ofdmTxVector, OfdmRate6Mbps,
        WifiMode.GetDataRate, ofdmSymbolDurationNs])

/-- The symbol count computed for the whole aggregate, as checked by the
Last-frame branch of the class the transmit vector selects. -/
def aggregateTargetSymbols (tx : WifiTxVector) (total : ℕ) : ℚ :=
  match tx.mode.modClass with
  | .HT | .VHT => htAggTarget tx total
  | _ => ofdmAggTarget tx total

/-- C4: along a committed First / Middle* / Last burst started on a zero
accumulator — in any of the classes that run the accumulator code: legacy
OFDM, ERP-OFDM, HT or VHT — the accumulated symbol count after the First
frame and after every Middle prefix stays at or below the symbol count
computed for the whole aggregate (the check the Last branch asserts), the
accumulator is never the zero state at those intermediate points, and it
returns to the zero state exactly when the Last frame is committed. -/
theorem aggregation_accumulator_invariant (C : PhyConstants) (tx : WifiTxVector)
    (preamble : WifiPreamble) (frequency : ℚ) (s1 sLast : ℕ) (mids : List ℕ)
    (hclass : tx.mode.modClass = .OFDM ∨ tx.mode.modClass = .ERP_OFDM
      ∨ tx.mode.modClass = .HT ∨ tx.mode.modClass = .VHT)
    (hpre : preamble ≠ .NONE)
    (hN : 0 < payloadNumDataBitsPerSymbol tx) :
    (∀ p q : List ℕ, mids = p ++ q →
      ∃ d1 st1 dp stp,
        GetPayloadDuration C s1 tx preamble frequency .MPDU_IN_AGGREGATE true zeroPhyState
          = some (d1, st1) ∧
        runMiddles C tx frequency p st1 = some (dp, stp) ∧
        stp.totalAmpduNumSymbols ≤ aggregateTargetSymbols tx (s1 + mids.sum + sLast) ∧
        stp ≠ zeroPhyState) ∧
    (∃ dB stB, runBurst C tx preamble frequency s1 mids sLast zeroPhyState
        = some (dB, stB) ∧ stB = zeroPhyState) := by
  have hcases : (tx.mode.modClass = .OFDM ∨ tx.mode.modClass = .ERP_OFDM)
      ∨ (tx.mode.modClass = .HT ∨ tx.mode.modClass = .VHT) := by tauto
  rcases hcases with hc | hc
  · -- legacy OFDM / ERP-OFDM
    have hN' : 0 < ofdmNumDataBitsPerSymbol tx := by
      rcases hc with hc | hc <;> simpa [payloadNumDataBitsPerSymbol, hc] using hN
    have h1 : GetPayloadDuration C s1 tx preamble frequency .MPDU_IN_AGGREGATE true zeroPhyState
        = some ((16 + (s1 : ℚ) * 8 + 6) / ofdmNumDataBitsPerSymbol tx
              * (ofdmSymbolDurationNs tx.channelWidth : ℚ)
              + (if tx.mode.modClass = .ERP_OFDM then 6000 else 0),
            ⟨s1, (16 + (s1 : ℚ) * 8 + 6) / ofdmNumDataBitsPerSymbol tx⟩) := by
      rw [payload_ofdm_first C s1 tx preamble frequency true zeroPhyState hc hpre]
      simp [zeroPhyState]
    have htarget : ∀ a : ℕ, a ≤ s1 + mids.sum →
        (16 + (a : ℚ) * 8 + 6) / ofdmNumDataBitsPerSymbol tx
          ≤ ofdmAggTarget tx (s1 + mids.sum + sLast) := by
      intro a ha
      rw [ofdmAggTarget]
      refine le_trans ?_ (Int.le_ceil _)
      apply (div_le_div_right hN').mpr
      have h8 : (a : ℚ) ≤ ((s1 + mids.sum + sLast : ℕ) : ℚ) := by
        exact_mod_cast (by omega : a ≤ s1 + mids.sum + sLast)
      linarith
    constructor
    · intro p q hpq
      have hm := runMiddles_ofdm_erp C tx frequency hc p
        ⟨s1, (16 + (s1 : ℚ) * 8 + 6) / ofdmNumDataBitsPerSymbol tx⟩
      dsimp only at hm
      refine ⟨_, _, _, _, h1, hm, ?_, ?_⟩
      · dsimp only
        have e1 : (16 + (s1 : ℚ) * 8 + 6) / ofdmNumDataBitsPerSymbol tx
            + (p.sum : ℚ) * 8 / ofdmNumDataBitsPerSymbol tx
            = (16 + ((s1 + p.sum : ℕ) : ℚ) * 8 + 6) / ofdmNumDataBitsPerSymbol tx := by
          push_cast
          ring
        rw [e1]
        have hps : s1 + p.sum ≤ s1 + mids.sum := by
          subst hpq
          simp [List.sum_append]
        rcases hc with hc | hc <;> simp only [aggregateTargetSymbols, hc] <;>
          exact htarget (s1 + p.sum) hps
      · have hpos : 0 < (16 + (s1 : ℚ) * 8 + 6) / ofdmNumDataBitsPerSymbol tx
            + (p.sum : ℚ) * 8 / ofdmNumDataBitsPerSymbol tx := by
          have e1 : (16 + (s1 : ℚ) * 8 + 6) / ofdmNumDataBitsPerSymbol tx
              + (p.sum : ℚ) * 8 / ofdmNumDataBitsPerSymbol tx
              = (16 + ((s1 : ℚ) + (p.sum : ℚ)) * 8 + 6) / ofdmNumDataBitsPerSymbol tx := by
            ring
          rw [e1]
          exact div_pos (by positivity) hN'
        intro heq
        have := congrArg WifiPhyState.totalAmpduNumSymbols heq
        dsimp [zeroPhyState] at this
        rw [this] at hpos
        exact lt_irrefl 0 hpos
    · have hm := runMiddles_ofdm_erp C tx frequency hc mids
        ⟨s1, (16 + (s1 : ℚ) * 8 + 6) / ofdmNumDataBitsPerSymbol tx⟩
      dsimp only at hm
      have hassert : ((16 + (s1 : ℚ) * 8 + 6) / ofdmNumDataBitsPerSymbol tx
            + (mids.sum : ℚ) * 8 / ofdmNumDataBitsPerSymbol tx)
          ≤ ofdmAggTarget tx (s1 + mids.sum + sLast) := by
        have e1 : (16 + (s1 : ℚ) * 8 + 6) / ofdmNumDataBitsPerSymbol tx
            + (mids.sum : ℚ) * 8 / ofdmNumDataBitsPerSymbol tx
            = (16 + ((s1 + mids.sum : ℕ) : ℚ) * 8 + 6) / ofdmNumDataBitsPerSymbol tx := by
          push_cast
          ring
        rw [e1]
        exact htarget (s1 + mids.sum) le_rfl
      have hl := payload_ofdm_last C sLast tx frequency true
        ⟨s1 + mids.sum, (16 + (s1 : ℚ) * 8 + 6) / ofdmNumDataBitsPerSymbol tx
          + (mids.sum : ℚ) * 8 / ofdmNumDataBitsPerSymbol tx⟩
        hc (by simpa using hassert)
      dsimp only at hl
      exact ⟨_, _, runBurst_eq C tx preamble frequency s1 mids sLast zeroPhyState
        _ _ _ _ _ _ h1 hm hl, rfl⟩
  · -- HT / VHT
    have hN' : 0 < htVhtNumDataBitsPerSymbol tx := by
      rcases hc with hc | hc <;> simpa [payloadNumDataBitsPerSymbol, hc] using hN
    have h1 : GetPayloadDuration C s1 tx preamble frequency .MPDU_IN_AGGREGATE true zeroPhyState
        = some ((16 + (s1 : ℚ) * 8 + 6 * (htVhtNes tx : ℚ)) / htVhtNumDataBitsPerSymbol tx
              * htVhtSymbolDurationNs tx,
            ⟨s1, (16 + (s1 : ℚ) * 8 + 6 * (htVhtNes tx : ℚ)) / htVhtNumDataBitsPerSymbol tx⟩) := by
      rw [payload_ht_first C s1 tx preamble frequency true zeroPhyState hc hpre]
      simp [zeroPhyState]
    have htarget : ∀ a : ℕ, a ≤ s1 + mids.sum →
        (16 + (a : ℚ) * 8 + 6 * (htVhtNes tx : ℚ)) / htVhtNumDataBitsPerSymbol tx
          ≤ htAggTarget tx (s1 + mids.sum + sLast) := by
      intro a ha
      have e2 : (16 + (a : ℚ) * 8 + 6 * (htVhtNes tx : ℚ)) / htVhtNumDataBitsPerSymbol tx
          ≤ (16 + ((s1 + mids.sum + sLast : ℕ) : ℚ) * 8 + 6 * (htVhtNes tx : ℚ))
            / htVhtNumDataBitsPerSymbol tx := by
        apply (div_le_div_right hN').mpr
        have h8 : (a : ℚ) ≤ ((s1 + mids.sum + sLast : ℕ) : ℚ) := by
          exact_mod_cast (by omega : a ≤ s1 + mids.sum + sLast)
        linarith
      have e3 : (16 + ((s1 + mids.sum + sLast : ℕ) : ℚ) * 8 + 6 * (htVhtNes tx : ℚ))
            / htVhtNumDataBitsPerSymbol tx
          = htStbcFactor tx *
            ((16 + ((s1 + mids.sum + sLast : ℕ) : ℚ) * 8 + 6 * (htVhtNes tx : ℚ))
              / (htStbcFactor tx * htVhtNumDataBitsPerSymbol tx)) := by
        rw [eq_comm, ← mul_div_assoc]
        exact stbc_cancel tx _ _
      have e4 : htStbcFactor tx *
            ((16 + ((s1 + mids.sum + sLast : ℕ) : ℚ) * 8 + 6 * (htVhtNes tx : ℚ))
              / (htStbcFactor tx * htVhtNumDataBitsPerSymbol tx))
          ≤ htAggTarget tx (s1 + mids.sum + sLast) := by
        rw [htAggTarget]
        exact mul_le_mul_of_nonneg_left (Int.le_ceil _) (htStbcFactor_pos tx).le
      exact le_trans e2 (le_trans (le_of_eq e3) e4)
    constructor
    · intro p q hpq
      have hm := runMiddles_ht C tx frequency hc p
        ⟨s1, (16 + (s1 : ℚ) * 8 + 6 * (htVhtNes tx : ℚ)) / htVhtNumDataBitsPerSymbol tx⟩
      dsimp only at hm
      refine ⟨_, _, _, _, h1, hm, ?_, ?_⟩
      · dsimp only
        have e1 : (16 + (s1 : ℚ) * 8 + 6 * (htVhtNes tx : ℚ)) / htVhtNumDataBitsPerSymbol tx
            + (p.sum : ℚ) * 8 / htVhtNumDataBitsPerSymbol tx
            = (16 + ((s1 + p.sum : ℕ) : ℚ) * 8 + 6 * (htVhtNes tx : ℚ))
              / htVhtNumDataBitsPerSymbol tx := by
          push_cast
          ring
        rw [e1]
        have hps : s1 + p.sum ≤ s1 + mids.sum := by
          subst hpq
          simp [List.sum_append]
        have := htarget (s1 + p.sum) hps
        rcases hc with hc | hc <;> simpa [aggregateTargetSymbols, hc] using this
      · have hpos : 0 < (16 + (s1 : ℚ) * 8 + 6 * (htVhtNes tx : ℚ))
              / htVhtNumDataBitsPerSymbol tx
            + (p.sum : ℚ) * 8 / htVhtNumDataBitsPerSymbol tx := by
          have e1 : (16 + (s1 : ℚ) * 8 + 6 * (htVhtNes tx : ℚ)) / htVhtNumDataBitsPerSymbol tx
              + (p.sum : ℚ) * 8 / htVhtNumDataBitsPerSymbol tx
              = (16 + ((s1 : ℚ) + (p.sum : ℚ)) * 8 + 6 * (htVhtNes tx : ℚ))
                / htVhtNumDataBitsPerSymbol tx := by
            ring
          rw [e1]
          exact div_pos (by positivity) hN'
        intro heq
        have := congrArg WifiPhyState.totalAmpduNumSymbols heq
        dsimp [zeroPhyState] at this
        rw [this] at hpos
        exact lt_irrefl 0 hpos
    · have hm := runMiddles_ht C tx frequency hc mids
        ⟨s1, (16 + (s1 : ℚ) * 8 + 6 * (htVhtNes tx : ℚ)) / htVhtNumDataBitsPerSymbol tx⟩
      dsimp only at hm
      have hassert : ((16 + (s1 : ℚ) * 8 + 6 * (htVhtNes tx : ℚ)) / htVhtNumDataBitsPerSymbol tx
            + (mids.sum : ℚ) * 8 / htVhtNumDataBitsPerSymbol tx)
          ≤ htAggTarget tx (s1 + mids.sum + sLast) := by
        have e1 : (16 + (s1 : ℚ) * 8 + 6 * (htVhtNes tx : ℚ)) / htVhtNumDataBitsPerSymbol tx
            + (mids.sum : ℚ) * 8 / htVhtNumDataBitsPerSymbol tx
            = (16 + ((s1 + mids.sum : ℕ) : ℚ) * 8 + 6 * (htVhtNes tx : ℚ))
              / htVhtNumDataBitsPerSymbol tx := by
          push_cast
          ring
        rw [e1]
        exact htarget (s1 + mids.sum) le_rfl
      have hl := payload_ht_last C sLast tx frequency true
        ⟨s1 + mids.sum, (16 + (s1 : ℚ) * 8 + 6 * (htVhtNes tx : ℚ)) / htVhtNumDataBitsPerSymbol tx
          + (mids.sum : ℚ) * 8 / htVhtNumDataBitsPerSymbol tx⟩
        hc (by simpa using hassert)
      dsimp only at hl
      exact ⟨_, _, runBurst_eq C tx preamble frequency s1 mids sLast zeroPhyState
        _ _ _ _ _ _ h1 hm hl, rfl⟩

/-- C4 witness. -/
theorem aggregation_accumulator_invariant_witness :
    (∀ p q : List ℕ, [50] = p ++ q →
      ∃ d1 st1 dp stp,
        GetPayloadDuration ⟨0, 0⟩ 100 (ofdmTxVector 20) .LONG 5180 .MPDU_IN_AGGREGATE true
          zeroPhyState = some (d1, st1) ∧
        runMiddles ⟨0, 0⟩ (ofdmTxVector 20) 5180 p st1 = some (dp, stp) ∧
        stp.totalAmpduNumSymbols
          ≤ aggregateTargetSymbols (ofdmTxVector 20) (100 + [50].sum + 30) ∧
        stp ≠ zeroPhyState) ∧
    (∃ dB stB, runBurst ⟨0, 0⟩ (ofdmTxVector 20) .LONG 5180 100 [50] 30 zeroPhyState
        = some (dB, stB) ∧ stB = zeroPhyState) :=
  aggregation_accumulator_invariant ⟨0, 0⟩ (ofdmTxVector 20) .LONG 5180 100 30 [50]
    (Or.inl rfl) (by decide)
    (show (0 : ℚ) < ofdmNumDataBitsPerSymbol (ofdmTxVector 20) by
      norm_num [ofdmNumDataBitsPerSymbol, ofdmTxVector, OfdmRate6Mbps,
        WifiMode.GetDataRate, ofdmSymbolDurationNs])

/-- The frame terminates the transmission: a Normal MPDU sent with a
preamble, or the last MPDU of an aggregate sent without one. -/
def MpduTerminating (mpdutype : MpduType) (preamble : WifiPreamble) : Prop :=
  (mpdutype = .NORMAL_MPDU ∧ preamble ≠ .NONE) ∨
  (mpdutype = .LAST_MPDU_IN_AGGREGATE ∧ preamble = .NONE)

instance mpduTerminatingDecidable (mpdutype : MpduType) (preamble : WifiPreamble) :
    Decidable (MpduTerminating mpdutype preamble) := by
  unfold MpduTerminating
  infer_instance

/-- The (mpdutype, preamble) combinations the payload branches accept;
any other combination is "Wrong combination of preamble and packet type"
(fatal). -/
def ValidMpduCombo (mpdutype : MpduType) (preamble : WifiPreamble) : Prop :=
  mpdutype = .MPDU_IN_AGGREGATE ∨
  (mpdutype = .NORMAL_MPDU ∧ preamble ≠ .NONE) ∨
  (mpdutype = .LAST_MPDU_IN_AGGREGATE ∧ preamble = .NONE)

/-- The HT/VHT symbol count per role, written from the spec's formulas
(refinement comparison for the tail characterization). -/
def htVhtSymbolCountSpec (tx : WifiTxVector) (size : ℕ) (mpdutype : MpduType)
    (preamble : WifiPreamble) (st : WifiPhyState) : ℚ :=
  match mpdutype with
  | .MPDU_IN_AGGREGATE =>
    if preamble = .NONE then (size : ℚ) * 8 / htVhtNumDataBitsPerSymbol tx
    else (16 + (size : ℚ) * 8 + 6 * (htVhtNes tx : ℚ)) / htVhtNumDataBitsPerSymbol tx
  | .LAST_MPDU_IN_AGGREGATE =>
    htAggTarget tx (st.totalAmpduSize + size) - st.totalAmpduNumSymbols
  | .NORMAL_MPDU => htAggTarget tx size

/-- C6 (amended): for HT and VHT, the returned duration is the symbol
count times the symbol duration, plus a fixed 6 µs tail exactly when the
modulation class is HT (never VHT), the frequency lies in [2400, 2500]
MHz, and the frame terminates the transmission. -/
theorem ht_vht_tail_characterization (C : PhyConstants) (size : ℕ) (tx : WifiTxVector)
    (preamble : WifiPreamble) (frequency : ℚ) (mpdutype : MpduType) (inc : Bool)
    (st : WifiPhyState)
    (hclass : tx.mode.modClass = .HT ∨ tx.mode.modClass = .VHT)
    (hcombo : ValidMpduCombo mpdutype preamble)
    (hassert : mpdutype = .LAST_MPDU_IN_AGGREGATE →
      st.totalAmpduNumSymbols ≤ htAggTarget tx (st.totalAmpduSize + size)) :
    ∃ d st', GetPayloadDuration C size tx preamble frequency mpdutype inc st
        = some (d, st') ∧
      d = htVhtSymbolCountSpec tx size mpdutype preamble st * htVhtSymbolDurationNs tx
        + (if tx.mode.modClass = .HT ∧ 2400 ≤ frequency ∧ frequency ≤ 2500
              ∧ MpduTerminating mpdutype preamble then 6000 else 0) := by
  rcases hcombo with hmp | ⟨hmp, hp⟩ | ⟨hmp, hp⟩
  · subst hmp
    by_cases hp : preamble = .NONE
    · subst hp
      refine ⟨_, _, payload_ht_middle C size tx frequency inc st hclass, ?_⟩
      rw [if_neg ?_]
      · simp [htVhtSymbolCountSpec]
      · rintro ⟨-, -, -, hterm⟩
        rcases hterm with ⟨h, -⟩ | ⟨h, -⟩ <;> cases h
    · refine ⟨_, _, payload_ht_first C size tx preamble frequency inc st hclass hp, ?_⟩
      rw [if_neg ?_]
      · simp [htVhtSymbolCountSpec, hp]
      · rintro ⟨-, -, -, hterm⟩
        rcases hterm with ⟨h, -⟩ | ⟨h, -⟩ <;> cases h
  · subst hmp
    refine ⟨_, _, payload_ht_normal C size tx preamble frequency inc st hclass hp, ?_⟩
    have hterm : MpduTerminating .NORMAL_MPDU preamble := Or.inl ⟨rfl, hp⟩
    simp only [htVhtSymbolCountSpec, hterm, and_true]
  · subst hmp
    subst hp
    refine ⟨_, _, payload_ht_last C size tx frequency inc st hclass (hassert rfl), ?_⟩
    have hterm : MpduTerminating .LAST_MPDU_IN_AGGREGATE .NONE := Or.inr ⟨rfl, rfl⟩
    simp only [htVhtSymbolCountSpec, hterm, and_true]

/-- C6 (amended) witness. -/
theorem ht_vht_tail_characterization_witness :
    ∃ d st', GetPayloadDuration ⟨0, 0⟩ 100 htTxVector .HT_MF 2437 .NORMAL_MPDU false
        zeroPhyState = some (d, st') ∧
      d = htVhtSymbolCountSpec htTxVector 100 .NORMAL_MPDU .HT_MF zeroPhyState
            * htVhtSymbolDurationNs htTxVector
        + (if htTxVector.mode.modClass = .HT ∧ (2400 : ℚ) ≤ 2437 ∧ (2437 : ℚ) ≤ 2500
              ∧ MpduTerminating .NORMAL_MPDU .HT_MF then 6000 else 0) :=
  ht_vht_tail_characterization ⟨0, 0⟩ 100 htTxVector .HT_MF 2437 .NORMAL_MPDU false
    zeroPhyState (Or.inl rfl)
    (Or.inr (Or.inl ⟨rfl, by decide⟩))
    (fun h => nomatch h)

theorem u32_id {n : ℕ} (h : n < 4294967296) : u32 n = n := by
  unfold u32 U32MOD
  omega

theorem u32sub_id {a b : ℕ} (hba : b ≤ a) (ha : a < 4294967296) : u32sub a b = a - b := by
  unfold u32sub U32MOD
  omega

theorem toNat_ceil_mono {p q : ℚ} (h : p ≤ q) : (⌈p⌉).toNat ≤ (⌈q⌉).toNat :=
  Int.toNat_le_toNat (Int.ceil_mono h)

theorem toNat_ceil_le {q : ℚ} {n : ℕ} (h : q ≤ (n : ℚ)) : (⌈q⌉).toNat ≤ n :=
  Int.toNat_le.mpr (Int.ceil_le.mpr (by exact_mod_cast h))

theorem toNat_ceil_pos {q : ℚ} (h : 0 < q) : 1 ≤ (⌈q⌉).toNat := by
  have : (0 : ℤ) < ⌈q⌉ := Int.ceil_pos.mpr h
  omega

theorem trainingFloor_mono (P : Prop) [Decidable P] (M t1 t2 : ℕ) (h : t1 ≤ t2) :
    (if P ∧ t1 < M then M else t1) ≤ (if P ∧ t2 < M then M else t2) := by
  by_cases hp : P
  · by_cases h1 : t1 < M <;> by_cases h2 : t2 < M <;> simp [hp, h1, h2] <;> omega
  · simp [hp, h]

theorem dmgScNcbpb_pos {c n : ℕ} (h : dmgScNcbpb c = some n) : 0 < n := by
  unfold dmgScNcbpb at h
  split at h <;> simp_all <;> omega

theorem dmgOfdmNcbps_ge {c n : ℕ} (h : dmgOfdmNcbps c = some n) : 336 ≤ n := by
  unfold dmgOfdmNcbps at h
  split at h <;> simp_all <;> omega

theorem dmgScTData_mono (Ncbpb : ℕ) (hpos : 0 < Ncbpb) {n1 n2 : ℕ} (h : n1 ≤ n2) :
    dmgScTData Ncbpb n1 ≤ dmgScTData Ncbpb n2 := by
  unfold dmgScTData
  have hNcw : (⌈(n1 : ℚ) / 672⌉).toNat ≤ (⌈(n2 : ℚ) / 672⌉).toNat :=
    toNat_ceil_mono ((div_le_div_right (by norm_num)).mpr (by exact_mod_cast h))
  have hNblks : (⌈((⌈(n1 : ℚ) / 672⌉).toNat : ℚ) * 672 / (Ncbpb : ℚ)⌉).toNat
      ≤ (⌈((⌈(n2 : ℚ) / 672⌉).toNat : ℚ) * 672 / (Ncbpb : ℚ)⌉).toNat := by
    apply toNat_ceil_mono
    apply (div_le_div_right (by exact_mod_cast hpos)).mpr
    have : (((⌈(n1 : ℚ) / 672⌉).toNat : ℕ) : ℚ) ≤ (((⌈(n2 : ℚ) / 672⌉).toNat : ℕ) : ℚ) := by
      exact_mod_cast hNcw
    linarith
  apply toNat_ceil_mono
  apply (div_le_div_right (by norm_num)).mpr
  have : (((⌈((⌈(n1 : ℚ) / 672⌉).toNat : ℚ) * 672 / (Ncbpb : ℚ)⌉).toNat : ℕ) : ℚ)
      ≤ (((⌈((⌈(n2 : ℚ) / 672⌉).toNat : ℚ) * 672 / (Ncbpb : ℚ)⌉).toNat : ℕ) : ℚ) := by
    exact_mod_cast hNblks
  linarith

theorem dmgOfdmTData_eval (Ncbps n : ℕ) (h336 : 336 ≤ Ncbps) (hn : n ≤ 134217728) :
    dmgOfdmTData Ncbps n
      = (⌈((⌈(n : ℚ) / 672⌉).toNat : ℚ) * 672 / (Ncbps : ℚ)⌉).toNat * 242 := by
  unfold dmgOfdmTData
  apply u32_id
  have hNcw : (⌈(n : ℚ) / 672⌉).toNat ≤ n / 672 + 1 := by
    apply toNat_ceil_le
    rw [div_le_iff (by norm_num)]
    push_cast
    exact_mod_cast (by omega : n ≤ (n / 672 + 1) * 672)
  have hNsym : (⌈((⌈(n : ℚ) / 672⌉).toNat : ℚ) * 672 / (Ncbps : ℚ)⌉).toNat
      ≤ 2 * (n / 672 + 1) := by
    apply toNat_ceil_le
    rw [div_le_iff (by positivity)]
    have hc : (((⌈(n : ℚ) / 672⌉).toNat : ℕ) : ℚ) ≤ ((n / 672 + 1 : ℕ) : ℚ) := by
      exact_mod_cast hNcw
    have h336q : (336 : ℚ) ≤ (Ncbps : ℚ) := by exact_mod_cast h336
    push_cast at hc ⊢
    nlinarith [hc, h336q, (by positivity : (0 : ℚ) ≤ ((n / 672 : ℕ) : ℚ))]
  have : n / 672 ≤ 199728 := by omega
  omega

theorem dmgOfdmTData_mono (Ncbps : ℕ) (h336 : 336 ≤ Ncbps) {n1 n2 : ℕ}
    (h : n1 ≤ n2) (hn2 : n2 ≤ 134217728) :
    dmgOfdmTData Ncbps n1 ≤ dmgOfdmTData Ncbps n2 := by
  rw [dmgOfdmTData_eval Ncbps n1 h336 (le_trans h hn2),
    dmgOfdmTData_eval Ncbps n2 h336 hn2]
  have hNcw : (⌈(n1 : ℚ) / 672⌉).toNat ≤ (⌈(n2 : ℚ) / 672⌉).toNat :=
    toNat_ceil_mono ((div_le_div_right (by norm_num)).mpr (by exact_mod_cast h))
  have hNsym : (⌈((⌈(n1 : ℚ) / 672⌉).toNat : ℚ) * 672 / (Ncbps : ℚ)⌉).toNat
      ≤ (⌈((⌈(n2 : ℚ) / 672⌉).toNat : ℚ) * 672 / (Ncbps : ℚ)⌉).toNat := by
    apply toNat_ceil_mono
    apply (div_le_div_right (by positivity)).mpr
    have : (((⌈(n1 : ℚ) / 672⌉).toNat : ℕ) : ℚ) ≤ (((⌈(n2 : ℚ) / 672⌉).toNat : ℕ) : ℚ) := by
      exact_mod_cast hNcw
    linarith
  omega

theorem dmgCodedBits_mono_le (r : WifiCodeRate) (hr : dmgCodeRateSupported r)
    (m1 m2 : ℕ) (h : m1 ≤ m2) (hb : m2 ≤ 33554432) :
    ∃ n1 n2, dmgCodedBits m1 r = some n1 ∧ dmgCodedBits m2 r = some n2 ∧
      n1 ≤ n2 ∧ n2 ≤ 4 * m2 := by
  have hm1q : (m1 : ℚ) ≤ (m2 : ℚ) := by exact_mod_cast h
  rcases hr with hr | hr | hr | hr | hr <;> subst hr <;> unfold dmgCodedBits
  · exact ⟨_, _, rfl, rfl, by
      rw [u32_id (by omega), u32_id (by omega)]
      omega, by rw [u32_id (by omega)]; omega⟩
  · exact ⟨_, _, rfl, rfl, by
      rw [u32_id (by omega), u32_id (by omega)]
      omega, by rw [u32_id (by omega)]; omega⟩
  · have h1 : (⌈(m1 : ℚ) * 16 / 13⌉).toNat ≤ 2 * m1 := by
      apply toNat_ceil_le
      rw [div_le_iff (by norm_num)]
      push_cast
      nlinarith [(by positivity : (0 : ℚ) ≤ (m1 : ℚ))]
    have h2 : (⌈(m2 : ℚ) * 16 / 13⌉).toNat ≤ 2 * m2 := by
      apply toNat_ceil_le
      rw [div_le_iff (by norm_num)]
      push_cast
      nlinarith [(by positivity : (0 : ℚ) ≤ (m2 : ℚ))]
    have hmono : (⌈(m1 : ℚ) * 16 / 13⌉).toNat ≤ (⌈(m2 : ℚ) * 16 / 13⌉).toNat := by
      apply toNat_ceil_mono
      apply (div_le_div_right (by norm_num)).mpr
      linarith
    exact ⟨_, _, rfl, rfl, by
      rw [u32_id (by omega), u32_id (by omega)]
      exact hmono, by rw [u32_id (by omega)]; omega⟩
  · have h1 : (⌈(m1 : ℚ) * 4 / 3⌉).toNat ≤ 2 * m1 := by
      apply toNat_ceil_le
      rw [div_le_iff (by norm_num)]
      push_cast
      nlinarith [(by positivity : (0 : ℚ) ≤ (m1 : ℚ))]
    have h2 : (⌈(m2 : ℚ) * 4 / 3⌉).toNat ≤ 2 * m2 := by
      apply toNat_ceil_le
      rw [div_le_iff (by norm_num)]
      push_cast
      nlinarith [(by positivity : (0 : ℚ) ≤ (m2 : ℚ))]
    have hmono : (⌈(m1 : ℚ) * 4 / 3⌉).toNat ≤ (⌈(m2 : ℚ) * 4 / 3⌉).toNat := by
      apply toNat_ceil_mono
      apply (div_le_div_right (by norm_num)).mpr
      linarith
    exact ⟨_, _, rfl, rfl, by
      rw [u32_id (by omega), u32_id (by omega)]
      exact hmono, by rw [u32_id (by omega)]; omega⟩
  · have h1 : (⌈(m1 : ℚ) * 8 / 5⌉).toNat ≤ 2 * m1 := by
      apply toNat_ceil_le
      rw [div_le_iff (by norm_num)]
      push_cast
      nlinarith [(by positivity : (0 : ℚ) ≤ (m1 : ℚ))]
    have h2 : (⌈(m2 : ℚ) * 8 / 5⌉).toNat ≤ 2 * m2 := by
      apply toNat_ceil_le
      rw [div_le_iff (by norm_num)]
      push_cast
      nlinarith [(by positivity : (0 : ℚ) ≤ (m2 : ℚ))]
    have hmono : (⌈(m1 : ℚ) * 8 / 5⌉).toNat ≤ (⌈(m2 : ℚ) * 8 / 5⌉).toNat := by
      apply toNat_ceil_mono
      apply (div_le_div_right (by norm_num)).mpr
      linarith
    exact ⟨_, _, rfl, rfl, by
      rw [u32_id (by omega), u32_id (by omega)]
      exact hmono, by rw [u32_id (by omega)]; omega⟩

theorem dmgCtrlNcw_of_le_six {x : ℕ} (hx : x ≤ 6) : dmgCtrlNcw x = 1 := by
  unfold dmgCtrlNcw
  have hq : (((x : ℚ)) - 6) * 8 / 168 ≤ 0 := by
    have : (x : ℚ) ≤ 6 := by exact_mod_cast hx
    have h8 : (((x : ℚ)) - 6) * 8 ≤ 0 := by linarith
    linarith [div_nonneg (by linarith : (0 : ℚ) ≤ -((((x : ℚ)) - 6) * 8)) (by norm_num : (0 : ℚ) ≤ 168)]
  have : ⌈(((x : ℚ)) - 6) * 8 / 168⌉ ≤ 0 := Int.ceil_le.mpr (by exact_mod_cast hq)
  omega

theorem dmgCtrlNcw_ge_two {x : ℕ} (hx : 7 ≤ x) : 2 ≤ dmgCtrlNcw x := by
  unfold dmgCtrlNcw
  have hq : (0 : ℚ) < (((x : ℚ)) - 6) * 8 / 168 := by
    have h7 : (7 : ℚ) ≤ (x : ℚ) := by exact_mod_cast hx
    have h8 : (0 : ℚ) < (((x : ℚ)) - 6) * 8 := by linarith
    positivity
  have := toNat_ceil_pos hq
  omega

theorem dmgCtrlNcw_mono {a b : ℕ} (hab : a ≤ b) : dmgCtrlNcw a ≤ dmgCtrlNcw b := by
  unfold dmgCtrlNcw
  have : (⌈(((a : ℚ)) - 6) * 8 / 168⌉).toNat ≤ (⌈(((b : ℚ)) - 6) * 8 / 168⌉).toNat := by
    apply toNat_ceil_mono
    apply (div_le_div_right (by norm_num)).mpr
    have : (a : ℚ) ≤ (b : ℚ) := by exact_mod_cast hab
    linarith
  omega

theorem dmgCtrlNcw_le {x : ℕ} : dmgCtrlNcw x ≤ x + 1 := by
  unfold dmgCtrlNcw
  have : (⌈(((x : ℚ)) - 6) * 8 / 168⌉).toNat ≤ x := by
    apply toNat_ceil_le
    rw [div_le_iff (by norm_num)]
    have : (0 : ℚ) ≤ (x : ℚ) := by positivity
    linarith
  omega

theorem dmgCtrlTrnW_small {x : ℕ} (hx : x < 6) : dmgCtrlTrnW x = 208 + 8 * x := by
  unfold dmgCtrlTrnW
  rw [dmgCtrlNcw_of_le_six (by omega)]
  unfold u32 u32sub U32MOD
  omega

theorem dmgCtrlTrnW_ge_six {x : ℕ} (h6 : 6 ≤ x) (hx : x ≤ 4194304) :
    dmgCtrlTrnW x = 88 + (x - 6) * 8 + dmgCtrlNcw x * 168 := by
  have hn : dmgCtrlNcw x ≤ x + 1 := dmgCtrlNcw_le
  unfold dmgCtrlTrnW
  unfold u32 u32sub U32MOD
  omega

theorem dmgCtrlTrnW_mono {a b : ℕ} (hab : a ≤ b) (hb : b ≤ 4194304) :
    dmgCtrlTrnW a ≤ dmgCtrlTrnW b := by
  by_cases hb6 : b < 6
  · rw [dmgCtrlTrnW_small (by omega), dmgCtrlTrnW_small hb6]
    omega
  · by_cases ha6 : a < 6
    · rw [dmgCtrlTrnW_small ha6, dmgCtrlTrnW_ge_six (by omega) hb]
      have h2 : 1 ≤ dmgCtrlNcw b := by
        unfold dmgCtrlNcw
        omega
      omega
    · rw [dmgCtrlTrnW_ge_six (by omega) (by omega), dmgCtrlTrnW_ge_six (by omega) hb]
      have := dmgCtrlNcw_mono hab
      omega

theorem dmgCtrlChips_eval {x : ℕ} (h7 : 7 ≤ x) (hx : x ≤ 4194304) :
    dmgCtrlChips x = (168 * (dmgCtrlNcw x - 1) + (x - 6) * 8) * 32 := by
  have hNcw2 : 2 ≤ dmgCtrlNcw x := dmgCtrlNcw_ge_two h7
  have hcastL : (((x : ℚ)) - 6) * 8 = (((x - 6) * 8 : ℕ) : ℚ) := by
    push_cast [Nat.cast_sub (by omega : 6 ≤ x)]
    ring
  have hL8 : 8 ≤ (x - 6) * 8 := by omega
  have hLbound : (x - 6) * 8 ≤ 33554384 := by omega
  have hm_eq : dmgCtrlNcw x - 1 = (⌈(((x - 6) * 8 : ℕ) : ℚ) / 168⌉).toNat := by
    unfold dmgCtrlNcw
    rw [hcastL]
    omega
  have hmQ : (((dmgCtrlNcw x - 1 : ℕ)) : ℚ) = ⌈(((x - 6) * 8 : ℕ) : ℚ) / 168⌉ := by
    rw [hm_eq]
    exact_mod_cast Int.toNat_of_nonneg (Int.ceil_nonneg (by positivity))
  have hm1 : 1 ≤ dmgCtrlNcw x - 1 := by omega
  have hm_ge : (((x - 6) * 8 : ℕ) : ℚ) / 168 ≤ ((dmgCtrlNcw x - 1 : ℕ) : ℚ) := by
    rw [hmQ]
    exact Int.le_ceil _
  have hm_lt : ((dmgCtrlNcw x - 1 : ℕ) : ℚ) < (((x - 6) * 8 : ℕ) : ℚ) / 168 + 1 := by
    rw [hmQ]
    exact Int.ceil_lt_add_one _
  have h168m : 168 * (dmgCtrlNcw x - 1) ≤ (x - 6) * 8 + 167 := by
    have hq : (168 : ℚ) * ((dmgCtrlNcw x - 1 : ℕ) : ℚ) < (((x - 6) * 8 : ℕ) : ℚ) + 168 := by
      linarith
    have : (168 * (dmgCtrlNcw x - 1) : ℕ) < (x - 6) * 8 + 168 := by exact_mod_cast hq
    omega
  have hNcwQ : ((dmgCtrlNcw x : ℚ)) - 1 = ((dmgCtrlNcw x - 1 : ℕ) : ℚ) := by
    push_cast [Nat.cast_sub (by omega : 1 ≤ dmgCtrlNcw x)]
    ring
  have hmQpos : (0 : ℚ) < ((dmgCtrlNcw x - 1 : ℕ) : ℚ) := by
    exact_mod_cast hm1
  set c : ℕ := (⌈(((x : ℚ)) - 6) * 8 / ((dmgCtrlNcw x : ℚ) - 1)⌉).toNat with hcdef
  have hc_eq : c = (⌈(((x - 6) * 8 : ℕ) : ℚ) / ((dmgCtrlNcw x - 1 : ℕ) : ℚ)⌉).toNat := by
    rw [hcdef, hcastL, hNcwQ]
  have hc_le : c ≤ 168 := by
    rw [hc_eq]
    apply toNat_ceil_le
    rw [div_le_iff hmQpos]
    rw [div_le_iff (by norm_num : (0 : ℚ) < 168)] at hm_ge
    push_cast at hm_ge ⊢
    linarith
  have hcQ : ((c : ℕ) : ℚ) = ⌈(((x - 6) * 8 : ℕ) : ℚ) / ((dmgCtrlNcw x - 1 : ℕ) : ℚ)⌉ := by
    rw [hc_eq]
    exact_mod_cast Int.toNat_of_nonneg
      (Int.ceil_nonneg (div_nonneg (by positivity) hmQpos.le))
  have hc_ge : (((x - 6) * 8 : ℕ) : ℚ) / ((dmgCtrlNcw x - 1 : ℕ) : ℚ) ≤ ((c : ℕ) : ℚ) := by
    rw [hcQ]
    exact Int.le_ceil _
  have hcm : (x - 6) * 8 ≤ c * (dmgCtrlNcw x - 1) := by
    rw [div_le_iff hmQpos] at hc_ge
    exact_mod_cast hc_ge
  have hprod : (dmgCtrlNcw x - 2) * c ≤ (x - 6) * 8 - 1 := by
    have h1 : (dmgCtrlNcw x - 2) * c ≤ (dmgCtrlNcw x - 2) * 168 :=
      Nat.mul_le_mul_left _ hc_le
    omega
  have hLd : (x - 6) * 8 - (dmgCtrlNcw x - 2) * c ≤ 168 := by
    have hsplit : (dmgCtrlNcw x - 1) * c = (dmgCtrlNcw x - 2) * c + c := by
      have h2 : dmgCtrlNcw x - 1 = (dmgCtrlNcw x - 2) + 1 := by omega
      rw [h2, Nat.add_mul, Nat.one_mul]
    have hcm' : (x - 6) * 8 ≤ (dmgCtrlNcw x - 2) * c + c := by
      rw [← hsplit, Nat.mul_comm (dmgCtrlNcw x - 1) c]
      exact hcm
    omega
  -- evaluate the uint32 chain
  have hL8eval : u32 (u32sub (u32 x) 6 * 8) = (x - 6) * 8 := by
    have e1 : u32 x = x := u32_id (by omega)
    have e2 : u32sub x 6 = x - 6 := u32sub_id (by omega) (by omega)
    rw [e1, e2]
    exact u32_id (by omega)
  have hu32prod : u32 ((dmgCtrlNcw x - 2) * c) = (dmgCtrlNcw x - 2) * c :=
    u32_id (by omega)
  have hsubL : u32sub ((x - 6) * 8) ((dmgCtrlNcw x - 2) * c)
      = (x - 6) * 8 - (dmgCtrlNcw x - 2) * c :=
    u32sub_id (by omega) (by omega)
  have h504c : u32sub 504 c = 504 - c := u32sub_id (by omega) (by norm_num)
  have h672c : u32sub 672 (504 - c) = 168 + c := by
    rw [u32sub_id (by omega) (by norm_num)]
    omega
  have h504L : u32sub 504 ((x - 6) * 8 - (dmgCtrlNcw x - 2) * c)
      = 504 - ((x - 6) * 8 - (dmgCtrlNcw x - 2) * c) :=
    u32sub_id (by omega) (by norm_num)
  have h672L : u32sub 672 (504 - ((x - 6) * 8 - (dmgCtrlNcw x - 2) * c))
      = 168 + ((x - 6) * 8 - (dmgCtrlNcw x - 2) * c) := by
    rw [u32sub_id (by omega) (by norm_num)]
    omega
  have hkey : (168 + c) * (dmgCtrlNcw x - 2)
        + (168 + ((x - 6) * 8 - (dmgCtrlNcw x - 2) * c))
      = 168 * (dmgCtrlNcw x - 1) + (x - 6) * 8 := by
    obtain ⟨k, hk⟩ : ∃ k, dmgCtrlNcw x = k + 2 := ⟨dmgCtrlNcw x - 2, by omega⟩
    rw [hk] at hprod ⊢
    simp only [Nat.add_sub_cancel] at hprod ⊢
    have h21 : k + 2 - 1 = k + 1 := by omega
    rw [h21]
    have hkc : k * c ≤ (x - 6) * 8 := by omega
    zify [hkc]
    ring
  have hDenBound : (168 + c) * (dmgCtrlNcw x - 2)
        + (168 + ((x - 6) * 8 - (dmgCtrlNcw x - 2) * c)) < 4294967296 := by
    rw [hkey]
    omega
  unfold dmgCtrlChips
  dsimp only
  rw [← hcdef]
  rw [hL8eval, hu32prod, hsubL, h504c, h672c, h504L, h672L, u32_id hDenBound, hkey,
    u32_id (by omega)]

theorem dmgCtrlChips_mono {a b : ℕ} (h7 : 7 ≤ a) (hab : a ≤ b) (hb : b ≤ 4194304) :
    dmgCtrlChips a ≤ dmgCtrlChips b := by
  rw [dmgCtrlChips_eval h7 (by omega), dmgCtrlChips_eval (by omega) hb]
  have h1 := dmgCtrlNcw_mono hab
  have h2 : 2 ≤ dmgCtrlNcw a := dmgCtrlNcw_ge_two h7
  omega

theorem payload_ofdm_last_inv (C : PhyConstants) (s : ℕ) (tx : WifiTxVector)
    (frequency : ℚ) (inc : Bool) (st : WifiPhyState) (d : ℚ) (st' : WifiPhyState)
    (hc : tx.mode.modClass = .OFDM ∨ tx.mode.modClass = .ERP_OFDM)
    (h : GetPayloadDuration C s tx .NONE frequency .LAST_MPDU_IN_AGGREGATE inc st
      = some (d, st')) :
    st.totalAmpduNumSymbols ≤ ofdmAggTarget tx (st.totalAmpduSize + s) := by
  by_contra hnot
  simp only [ofdmAggTarget, Nat.cast_add] at hnot
  rcases hc with hc | hc <;> simp [GetPayloadDuration, hc, hnot] at h

theorem payload_ht_last_inv (C : PhyConstants) (s : ℕ) (tx : WifiTxVector)
    (frequency : ℚ) (inc : Bool) (st : WifiPhyState) (d : ℚ) (st' : WifiPhyState)
    (hc : tx.mode.modClass = .HT ∨ tx.mode.modClass = .VHT)
    (h : GetPayloadDuration C s tx .NONE frequency .LAST_MPDU_IN_AGGREGATE inc st
      = some (d, st')) :
    st.totalAmpduNumSymbols ≤ htAggTarget tx (st.totalAmpduSize + s) := by
  by_contra hnot
  simp only [htAggTarget, Nat.cast_add] at hnot
  rcases hc with hc | hc <;> simp [GetPayloadDuration, hc, hnot] at h

/-- C8 (amended): PayloadDuration is monotonically non-decreasing in the
payload size for every supported mode and every fixed transmit vector,
preamble, frequency, role and accumulator — for all sizes in the
DSSS/HR-DSSS/OFDM/ERP-OFDM/HT/VHT classes, and for sizes up to 2^22
bytes in the DMG classes, whose `uint32_t` intermediates stay in range
there. -/
theorem payload_duration_monotone_amended (C : PhyConstants) (tx : WifiTxVector)
    (preamble : WifiPreamble) (frequency : ℚ) (mpdutype : MpduType) (inc : Bool)
    (st : WifiPhyState) (a b : ℕ) (hab : a ≤ b)
    (hsup : ModeSupported tx)
    (hdmg : isDmgClass tx.mode.modClass → b ≤ 4194304)
    (da db : ℚ) (stA stB : WifiPhyState)
    (ha : GetPayloadDuration C a tx preamble frequency mpdutype inc st = some (da, stA))
    (hb : GetPayloadDuration C b tx preamble frequency mpdutype inc st = some (db, stB)) :
    da ≤ db := by
  have habq : (a : ℚ) ≤ (b : ℚ) := by exact_mod_cast hab
  cases hc : tx.mode.modClass
  case OFDM | ERP_OFDM =>
    have hcOr : tx.mode.modClass = .OFDM ∨ tx.mode.modClass = .ERP_OFDM := by simp [hc]
    have hN' : 0 < ofdmNumDataBitsPerSymbol tx := by
      simp only [ModeSupported, hc] at hsup
      exact div_pos (mul_pos hsup (ofdmSymbolDurationNs_pos _)) (by norm_num)
    have hT : (0 : ℚ) ≤ ((ofdmSymbolDurationNs tx.channelWidth : ℕ) : ℚ) :=
      Nat.cast_nonneg _
    cases mpdutype with
    | MPDU_IN_AGGREGATE =>
      by_cases hp : preamble = .NONE
      · subst hp
        rw [payload_ofdm_middle C a tx frequency inc st hcOr] at ha
        rw [payload_ofdm_middle C b tx frequency inc st hcOr] at hb
        simp only [Option.some.injEq, Prod.mk.injEq] at ha hb
        obtain ⟨hda, -⟩ := ha
        obtain ⟨hdb, -⟩ := hb
        subst hda hdb
        apply add_le_add_right
        apply mul_le_mul_of_nonneg_right _ hT
        apply (div_le_div_right hN').mpr
        linarith
      · rw [payload_ofdm_first C a tx preamble frequency inc st hcOr hp] at ha
        rw [payload_ofdm_first C b tx preamble frequency inc st hcOr hp] at hb
        simp only [Option.some.injEq, Prod.mk.injEq] at ha hb
        obtain ⟨hda, -⟩ := ha
        obtain ⟨hdb, -⟩ := hb
        subst hda hdb
        apply add_le_add_right
        apply mul_le_mul_of_nonneg_right _ hT
        apply (div_le_div_right hN').mpr
        linarith
    | LAST_MPDU_IN_AGGREGATE =>
      by_cases hp : preamble = .NONE
      · subst hp
        have hassertA := payload_ofdm_last_inv C a tx frequency inc st da stA hcOr ha
        have hassertB := payload_ofdm_last_inv C b tx frequency inc st db stB hcOr hb
        rw [payload_ofdm_last C a tx frequency inc st hcOr hassertA] at ha
        rw [payload_ofdm_last C b tx frequency inc st hcOr hassertB] at hb
        simp only [Option.some.injEq, Prod.mk.injEq] at ha hb
        obtain ⟨hda, -⟩ := ha
        obtain ⟨hdb, -⟩ := hb
        subst hda hdb
        apply add_le_add_right
        apply mul_le_mul_of_nonneg_right _ hT
        apply sub_le_sub_right
        simp only [ofdmAggTarget]
        have : (⌈(16 + ((st.totalAmpduSize + a : ℕ) : ℚ) * 8 + 6) / ofdmNumDataBitsPerSymbol tx⌉)
            ≤ (⌈(16 + ((st.totalAmpduSize + b : ℕ) : ℚ) * 8 + 6) / ofdmNumDataBitsPerSymbol tx⌉) := by
          apply Int.ceil_mono
          apply (div_le_div_right hN').mpr
          have : ((st.totalAmpduSize + a : ℕ) : ℚ) ≤ ((st.totalAmpduSize + b : ℕ) : ℚ) := by
            exact_mod_cast Nat.add_le_add_left hab _
          linarith
        exact_mod_cast this
      · rcases hcOr with hc' | hc' <;> simp [GetPayloadDuration, hc', hp] at ha
    | NORMAL_MPDU =>
      by_cases hp : preamble = .NONE
      · subst hp
        rcases hcOr with hc' | hc' <;> simp [GetPayloadDuration, hc'] at ha
      · rw [payload_ofdm_normal C a tx preamble frequency inc st hcOr hp] at ha
        rw [payload_ofdm_normal C b tx preamble frequency inc st hcOr hp] at hb
        simp only [Option.some.injEq, Prod.mk.injEq] at ha hb
        obtain ⟨hda, -⟩ := ha
        obtain ⟨hdb, -⟩ := hb
        subst hda hdb
        apply add_le_add_right
        apply mul_le_mul_of_nonneg_right _ hT
        have : (⌈(16 + (a : ℚ) * 8 + 6) / ofdmNumDataBitsPerSymbol tx⌉)
            ≤ (⌈(16 + (b : ℚ) * 8 + 6) / ofdmNumDataBitsPerSymbol tx⌉) := by
          apply Int.ceil_mono
          apply (div_le_div_right hN').mpr
          linarith
        exact_mod_cast this
  case HT | VHT =>
    have hcOr : tx.mode.modClass = .HT ∨ tx.mode.modClass = .VHT := by simp [hc]
    have hN' : 0 < htVhtNumDataBitsPerSymbol tx := by
      simp only [ModeSupported, hc] at hsup
      exact div_pos (mul_pos hsup (htVhtSymbolDurationNs_pos _)) (by norm_num)
    have hT : (0 : ℚ) ≤ htVhtSymbolDurationNs tx := (htVhtSymbolDurationNs_pos tx).le
    have hmN : 0 < htStbcFactor tx * htVhtNumDataBitsPerSymbol tx :=
      mul_pos (htStbcFactor_pos tx) hN'
    cases mpdutype with
    | MPDU_IN_AGGREGATE =>
      by_cases hp : preamble = .NONE
      · subst hp
        rw [payload_ht_middle C a tx frequency inc st hcOr] at ha
        rw [payload_ht_middle C b tx frequency inc st hcOr] at hb
        simp only [Option.some.injEq, Prod.mk.injEq] at ha hb
        obtain ⟨hda, -⟩ := ha
        obtain ⟨hdb, -⟩ := hb
        subst hda hdb
        apply mul_le_mul_of_nonneg_right _ hT
        apply (div_le_div_right hN').mpr
        linarith
      · rw [payload_ht_first C a tx preamble frequency inc st hcOr hp] at ha
        rw [payload_ht_first C b tx preamble frequency inc st hcOr hp] at hb
        simp only [Option.some.injEq, Prod.mk.injEq] at ha hb
        obtain ⟨hda, -⟩ := ha
        obtain ⟨hdb, -⟩ := hb
        subst hda hdb
        apply mul_le_mul_of_nonneg_right _ hT
        apply (div_le_div_right hN').mpr
        linarith
    | LAST_MPDU_IN_AGGREGATE =>
      by_cases hp : preamble = .NONE
      · subst hp
        have hassertA := payload_ht_last_inv C a tx frequency inc st da stA hcOr ha
        have hassertB := payload_ht_last_inv C b tx frequency inc st db stB hcOr hb
        rw [payload_ht_last C a tx frequency inc st hcOr hassertA] at ha
        rw [payload_ht_last C b tx frequency inc st hcOr hassertB] at hb
        simp only [Option.some.injEq, Prod.mk.injEq] at ha hb
        obtain ⟨hda, -⟩ := ha
        obtain ⟨hdb, -⟩ := hb
        subst hda hdb
        apply add_le_add_right
        apply mul_le_mul_of_nonneg_right _ hT
        apply sub_le_sub_right
        simp only [htAggTarget]
        apply mul_le_mul_of_nonneg_left _ (htStbcFactor_pos tx).le
        have : (⌈(16 + ((st.totalAmpduSize + a : ℕ) : ℚ) * 8 + 6 * (htVhtNes tx : ℚ))
              / (htStbcFactor tx * htVhtNumDataBitsPerSymbol tx)⌉)
            ≤ (⌈(16 + ((st.totalAmpduSize + b : ℕ) : ℚ) * 8 + 6 * (htVhtNes tx : ℚ))
              / (htStbcFactor tx * htVhtNumDataBitsPerSymbol tx)⌉) := by
          apply Int.ceil_mono
          apply (div_le_div_right hmN).mpr
          have : ((st.totalAmpduSize + a : ℕ) : ℚ) ≤ ((st.totalAmpduSize + b : ℕ) : ℚ) := by
            exact_mod_cast Nat.add_le_add_left hab _
          linarith
        exact_mod_cast this
      · rcases hcOr with hc' | hc' <;> simp [GetPayloadDuration, hc', hp] at ha
    | NORMAL_MPDU =>
      by_cases hp : preamble = .NONE
      · subst hp
        rcases hcOr with hc' | hc' <;> simp [GetPayloadDuration, hc'] at ha
      · rw [payload_ht_normal C a tx preamble frequency inc st hcOr hp] at ha
        rw [payload_ht_normal C b tx preamble frequency inc st hcOr hp] at hb
        simp only [Option.some.injEq, Prod.mk.injEq] at ha hb
        obtain ⟨hda, -⟩ := ha
        obtain ⟨hdb, -⟩ := hb
        subst hda hdb
        apply add_le_add_right
        apply mul_le_mul_of_nonneg_right _ hT
        simp only [htAggTarget]
        apply mul_le_mul_of_nonneg_left _ (htStbcFactor_pos tx).le
        have : (⌈(16 + (a : ℚ) * 8 + 6 * (htVhtNes tx : ℚ))
              / (htStbcFactor tx * htVhtNumDataBitsPerSymbol tx)⌉)
            ≤ (⌈(16 + (b : ℚ) * 8 + 6 * (htVhtNes tx : ℚ))
              / (htStbcFactor tx * htVhtNumDataBitsPerSymbol tx)⌉) := by
          apply Int.ceil_mono
          apply (div_le_div_right hmN).mpr
          linarith
        exact_mod_cast this
  case DSSS | HR_DSSS =>
    simp only [ModeSupported, hc] at hsup
    simp only [GetPayloadDuration, hc, Option.some.injEq, Prod.mk.injEq] at ha hb
    obtain ⟨hda, -⟩ := ha
    obtain ⟨hdb, -⟩ := hb
    subst hda hdb
    apply mul_le_mul_of_nonneg_left _ (by norm_num : (0 : ℚ) ≤ 1000)
    have : (⌈(a : ℚ) * 8 / (tx.mode.GetDataRate 22 false 1 / 1000000)⌉)
        ≤ (⌈(b : ℚ) * 8 / (tx.mode.GetDataRate 22 false 1 / 1000000)⌉) := by
      apply Int.ceil_mono
      apply (div_le_div_right (by positivity)).mpr
      linarith
    exact_mod_cast this
  case DMG_CTRL =>
    have hb22 : b ≤ 4194304 := hdmg (by simp [isDmgClass, hc])
    by_cases htr : tx.trainingFieldLength = 0
    · by_cases h7 : 7 ≤ a
      · have hna : ¬ (dmgCtrlNcw a = 1) := by
          have := dmgCtrlNcw_ge_two h7
          omega
        have hnb : ¬ (dmgCtrlNcw b = 1) := by
          have := dmgCtrlNcw_ge_two (by omega : 7 ≤ b)
          omega
        simp only [GetPayloadDuration, hc, htr, if_true, hna, hnb, if_false,
          Option.some.injEq, Prod.mk.injEq] at ha hb
        obtain ⟨hda, -⟩ := ha
        obtain ⟨hdb, -⟩ := hb
        subst hda hdb
        have hchips := dmgCtrlChips_mono h7 hab hb22
        have : (⌈(dmgCtrlChips a : ℚ) / (44/25)⌉) ≤ (⌈(dmgCtrlChips b : ℚ) / (44/25)⌉) := by
          apply Int.ceil_mono
          apply (div_le_div_right (by norm_num)).mpr
          exact_mod_cast hchips
        exact_mod_cast this
      · have hna : dmgCtrlNcw a = 1 := dmgCtrlNcw_of_le_six (by omega)
        simp [GetPayloadDuration, hc, htr, hna] at ha
    · simp only [GetPayloadDuration, hc, htr, if_false, Option.some.injEq,
        Prod.mk.injEq] at ha hb
      obtain ⟨hda, -⟩ := ha
      obtain ⟨hdb, -⟩ := hb
      subst hda hdb
      have hw := dmgCtrlTrnW_mono hab hb22
      have : (⌈(dmgCtrlTrnW a : ℚ) * (57/100) * 32⌉) ≤ (⌈(dmgCtrlTrnW b : ℚ) * (57/100) * 32⌉) := by
        apply Int.ceil_mono
        have : (dmgCtrlTrnW a : ℚ) ≤ (dmgCtrlTrnW b : ℚ) := by exact_mod_cast hw
        nlinarith
      exact_mod_cast this
  case DMG_SC =>
    have hb22 : b ≤ 4194304 := hdmg (by simp [isDmgClass, hc])
    simp only [ModeSupported, hc] at hsup
    obtain ⟨hncbSome, hcr⟩ := hsup
    obtain ⟨ncb, hncb⟩ := Option.isSome_iff_exists.mp hncbSome
    have hu32a : u32 (a * 8) = a * 8 := u32_id (by omega)
    have hu32b : u32 (b * 8) = b * 8 := u32_id (by omega)
    obtain ⟨n1, n2, hn1, hn2, hmono, hbound⟩ :=
      dmgCodedBits_mono_le tx.mode.codeRate hcr (a * 8) (b * 8) (by omega) (by omega)
    simp only [GetPayloadDuration, hc, hncb, hu32a, hu32b, hn1, hn2,
      Option.some.injEq, Prod.mk.injEq] at ha hb
    obtain ⟨hda, -⟩ := ha
    obtain ⟨hdb, -⟩ := hb
    subst hda hdb
    have hmonoT := dmgScTData_mono ncb (dmgScNcbpb_pos hncb) hmono
    exact_mod_cast trainingFloor_mono _ _ _ _ hmonoT
  case DMG_OFDM =>
    have hb22 : b ≤ 4194304 := hdmg (by simp [isDmgClass, hc])
    simp only [ModeSupported, hc] at hsup
    obtain ⟨hncbSome, hcr⟩ := hsup
    obtain ⟨ncb, hncb⟩ := Option.isSome_iff_exists.mp hncbSome
    have hu32a : u32 (a * 8) = a * 8 := u32_id (by omega)
    have hu32b : u32 (b * 8) = b * 8 := u32_id (by omega)
    obtain ⟨n1, n2, hn1, hn2, hmono, hbound⟩ :=
      dmgCodedBits_mono_le tx.mode.codeRate hcr (a * 8) (b * 8) (by omega) (by omega)
    simp only [GetPayloadDuration, hc, hncb, hu32a, hu32b, hn1, hn2,
      Option.some.injEq, Prod.mk.injEq] at ha hb
    obtain ⟨hda, -⟩ := ha
    obtain ⟨hdb, -⟩ := hb
    subst hda hdb
    have hmonoT := dmgOfdmTData_mono ncb (dmgOfdmNcbps_ge hncb) hmono (by omega)
    exact_mod_cast trainingFloor_mono _ _ _ _ hmonoT
  case DMG_LP_SC =>
    simp only [GetPayloadDuration, hc, Option.some.injEq, Prod.mk.injEq] at ha hb
    obtain ⟨hda, -⟩ := ha
    obtain ⟨hdb, -⟩ := hb
    subst hda hdb
    exact le_refl 0

/-- C8 (amended) witness. -/
theorem payload_duration_monotone_amended_witness : (8000 : ℚ) ≤ 8000 :=
  payload_duration_monotone_amended ⟨0, 0⟩ (ofdmTxVector 20) .LONG 5180 .NORMAL_MPDU
    false zeroPhyState 1 2 (by norm_num)
    (by norm_num [ModeSupported, ofdmTxVector, OfdmRate6Mbps, WifiMode.GetDataRate])
    (by intro h; exact absurd h (by simp [isDmgClass, ofdmTxVector, OfdmRate6Mbps]))
    8000 8000 zeroPhyState zeroPhyState
    (by rw [payload_ofdm_normal _ _ _ _ _ _ _ (Or.inl rfl) (by decide)]
        rw [if_neg (by decide)]
        have h24 : ofdmNumDataBitsPerSymbol (ofdmTxVector 20) = 24 := by
          norm_num [ofdmNumDataBitsPerSymbol, ofdmTxVector, OfdmRate6Mbps,
            WifiMode.GetDataRate, ofdmSymbolDurationNs]
        rw [h24]
        norm_num
        rw [show ⌈(5 / 4 : ℚ)⌉ = 2 from by rw [Int.ceil_eq_iff] <;> norm_num]
        norm_num [ofdmSymbolDurationNs, ofdmTxVector])
    (by rw [payload_ofdm_normal _ _ _ _ _ _ _ (Or.inl rfl) (by decide)]
        rw [if_neg (by decide)]
        have h24 : ofdmNumDataBitsPerSymbol (ofdmTxVector 20) = 24 := by
          norm_num [ofdmNumDataBitsPerSymbol, ofdmTxVector, OfdmRate6Mbps,
            WifiMode.GetDataRate, ofdmSymbolDurationNs]
        rw [h24]
        norm_num
        rw [show ⌈(19 / 12 : ℚ)⌉ = 2 from by rw [Int.ceil_eq_iff] <;> norm_num]
        norm_num [ofdmSymbolDurationNs, ofdmTxVector])
